import Mathlib

/-!
Verification of the email-to-show heuristic parser of the sona-concert-tracker
repository (`src/lib/parse-show-from-email.ts`), shallowly embedded over
`List Char`.  Every matching construct of the source (JavaScript regular
expressions with leftmost-first, greedy/lazy and backtracking semantics) is
compiled by hand into an executable scanner.  Case-insensitive matching and
`toUpperCase`/`toLowerCase` are modelled on ASCII (all pattern literals in the
source are ASCII); `\s` is modelled as the ASCII whitespace characters.
-/

set_option maxRecDepth 8000

namespace SCT

/-- Strings are modelled as lists of characters (JavaScript string = sequence
of code units; all inputs considered are ASCII-clean). -/
abbrev Str := List Char

/-- JavaScript `\s`, restricted to the ASCII whitespace characters. -/
def isWs (c : Char) : Bool :=
  c = ' ' || c = '\t' || c = '\n' || c = '\r' || c = '\x0b' || c = '\x0c'

/-- JavaScript `\d`. -/
def isDigitChar (c : Char) : Bool := '0' ≤ c && c ≤ '9'

/-- JavaScript `\w` (word character, used by `\b` word boundaries). -/
def isWordChar (c : Char) : Bool :=
  ('a' ≤ c && c ≤ 'z') || ('A' ≤ c && c ≤ 'Z') || isDigitChar c || c = '_'

/-- Character class `[\s:]` used by the label regexes. -/
def sepWsColon (c : Char) : Bool := isWs c || c = ':'

/-- Case-insensitive character comparison (ASCII model of the `i` regex flag). -/
def eqCI (a b : Char) : Bool := a.toLower = b.toLower

/-- JavaScript `String.prototype.trim` (ASCII whitespace model). -/
def trimStr (s : Str) : Str :=
  ((s.dropWhile isWs).reverse.dropWhile isWs).reverse

/-- First-truthy-wins `||` on two JavaScript string values, where the empty
string is falsy (`null` is `none`). -/
def jsOrS (a : Option Str) (b : Str) : Str :=
  match a with
  | some s => if s = [] then b else s
  | none => b

/-- `a || b` where both sides are string-or-null values. -/
def jsOrO (a b : Option Str) : Option Str :=
  match a with
  | some s => if s = [] then b else some s
  | none => b

/-- `a ?? b` / first-some choice on options (also used for ordered regex
alternation, which tries alternatives left to right). -/
def orO (a b : Option α) : Option α :=
  match a with
  | some v => some v
  | none => b

/-- JavaScript `s.split(/\s+/)`: pieces between maximal whitespace runs; a
leading (trailing) run contributes a leading (trailing) empty piece, and
`"".split` is `[""]`. -/
def splitWs : Str → List Str
  | [] => [[]]
  | [c] => if isWs c then [[], []] else [[c]]
  | c :: c2 :: t =>
    if isWs c then
      if isWs c2 then splitWs (c2 :: t) else [] :: splitWs (c2 :: t)
    else
      match splitWs (c2 :: t) with
      | p :: ps => (c :: p) :: ps
      | [] => [[c]]

/-- JavaScript `s.split(",")`. -/
def splitComma : Str → List Str
  | [] => [[]]
  | c :: t =>
    if c = ',' then [] :: splitComma t
    else
      match splitComma t with
      | h :: rest => (c :: h) :: rest
      | [] => [[c]]

/-- JavaScript `s.replace(/\s+/g, " ")`: collapse each whitespace run to a
single space (a whitespace character absorbs into the run it precedes, and a
run's collapsed form is the single space the recursion already produced). -/
def collapseWs : Str → Str
  | [] => []
  | c :: t =>
    if isWs c then
      match collapseWs t with
      | ' ' :: r => ' ' :: r
      | r => ' ' :: r
    else c :: collapseWs t

/-- Helper for `stripTags`: given the text after a `<`, find the closing `>`
of a `/<[^>]+>/` match (at least one character between the brackets) and
return the remainder after it. -/
def tagClose : Str → Option Str
  | [] => none
  | c :: t => if c = '>' then some t else tagClose t

/-- `t` begins right after a `<`; the regex `<[^>]+>` matches iff there is at
least one non-`>` character and then a `>`. -/
def tagSkip : Str → Option Str
  | [] => none
  | c :: t => if c = '>' then none else tagClose t

/-- JavaScript `html.replace(/<[^>]+>/g, " ")`: each tag-like substring is
replaced by a single space; a `<` with no matching `>` (or immediately closed)
is kept literally.  The fuel argument (one unit per character consumed, so the
string's length suffices) keeps the recursion structural. -/
def stripTagsF : Nat → Str → Str
  | _, [] => []
  | 0, s => s
  | fuel + 1, c :: t =>
    if c = '<' then
      match tagSkip t with
      | some r => ' ' :: stripTagsF fuel r
      | none => c :: stripTagsF fuel t
    else c :: stripTagsF fuel t

def stripTags (s : Str) : Str := stripTagsF s.length s

/-- `stripHtml` of the source: strip tags, collapse whitespace, trim. -/
def stripHtml (html : Str) : Str := trimStr (collapseWs (stripTags html))

/-- Numeric value of a digit string (`parseInt` on an all-digit string). -/
def digitsToNat (s : Str) : Nat :=
  s.foldl (fun acc c => 10 * acc + (c.toNat - 48)) 0

/-- `padStart(2, "0")`. -/
def pad2 (s : Str) : Str :=
  if 2 ≤ s.length then s else if s.length = 1 then '0' :: s else ['0', '0']

/-- Decimal digit character (only used with `n ≤ 9`). -/
def digitChar (n : Nat) : Char :=
  match n with
  | 0 => '0' | 1 => '1' | 2 => '2' | 3 => '3' | 4 => '4'
  | 5 => '5' | 6 => '6' | 7 => '7' | 8 => '8' | 9 => '9'
  | _ => '0'

/-- JavaScript `String(n)` for `n < 100` (the source only renders month
numbers 1–12 this way). -/
def natDigits (n : Nat) : Str :=
  if n < 10 then [digitChar n] else [digitChar (n / 10), digitChar (n % 10)]

/-- Drop a case-insensitive literal pattern from the front of the text,
returning the remainder. -/
def dropLitCI : Str → Str → Option Str
  | [], s => some s
  | _ :: _, [] => none
  | p :: ps, c :: cs => if eqCI c p then dropLitCI ps cs else none

/-- `\s+` (greedy; deterministic whenever the next pattern item cannot match
whitespace, which is the case at every use site). -/
def wsPlus : Str → Option Str
  | [] => none
  | c :: t => if isWs c then some (t.dropWhile isWs) else none

/-- Generic leftmost-match scanner: try the local matcher at every suffix,
left to right (JavaScript regex search semantics). -/
def findFirst (m : Str → Option α) : Str → Option α
  | [] => m []
  | c :: t =>
    match m (c :: t) with
    | some v => some v
    | none => findFirst m t

/-- Leftmost-match scanner for `^`-anchored patterns under the `m` flag (and
for the `(?:^|\n)` prefix, which yields the same matches): the matcher is
tried at the string start and after every newline. -/
def findAtLineStarts (m : Str → Option α) : Bool → Str → Option α
  | atStart, [] => if atStart then m [] else none
  | atStart, c :: t =>
    match (if atStart then m (c :: t) else none) with
    | some v => some v
    | none => findAtLineStarts m (c = '\n') t

/-- Leftmost-match scanner for patterns starting with `\b` followed by a word
character: the flag records whether the previous character allows a word
boundary here. -/
def findBdry (m : Str → Option α) : Bool → Str → Option α
  | bOk, [] => if bOk then m [] else none
  | bOk, c :: t =>
    match (if bOk then m (c :: t) else none) with
    | some v => some v
    | none => findBdry m (!isWordChar c) t

/-- `sep*` followed by a nonempty capture `cap+`, with the greedy backtracking
of the quantifier: prefer consuming more separator characters; on failure fall
back to starting the capture on a separator character itself (possible when
the separator class and the capture class overlap, e.g. `[\s:]+([^\n]+)`). -/
def capAfterSepStar (sep cap : Char → Bool) : Str → Option Str
  | [] => none
  | c :: t =>
    if sep c then
      match capAfterSepStar sep cap t with
      | some r => some r
      | none => if cap c then some ((c :: t).takeWhile cap) else none
    else if cap c then some ((c :: t).takeWhile cap) else none

/-- `sep+` (at least one separator character) followed by a nonempty greedy
capture, as in `[\s:]+([^\n<]+)`. -/
def capAfterSepPlus (sep cap : Char → Bool) : Str → Option Str
  | [] => none
  | c :: t => if sep c then capAfterSepStar sep cap t else none

/-- Exactly `n` digits (`\d{n}`): returns the digits and the remainder. -/
def digitsN : Nat → Str → Option (Str × Str)
  | 0, s => some ([], s)
  | _ + 1, [] => none
  | n + 1, c :: t =>
    if isDigitChar c then
      match digitsN n t with
      | some (d, r) => some (c :: d, r)
      | none => none
    else none

/-- `\d{1,2}` in continuation-passing style: greedily try two digits, then
backtrack to one. -/
def digits12 (s : Str) (k : Str → Str → Option α) : Option α :=
  match s with
  | [] => none
  | [a] => if isDigitChar a then k [a] [] else none
  | a :: b :: t =>
    if isDigitChar a then
      if isDigitChar b then
        match k [a, b] t with
        | some v => some v
        | none => k [a] (b :: t)
      else k [a] (b :: t)
    else none

/-- `\d{1,2}` `sep` `\d{1,2}` `sep` `\d{4}` at the current position, in CPS
(used for the dot- and slash-separated date grammars); the continuation
receives the three captures and the remainder. -/
def numTriple (sep : Char) (s : Str) (k : Str → Str → Str → Str → Option α) :
    Option α :=
  digits12 s fun a r1 =>
    match r1 with
    | c :: r2 =>
      if c = sep then
        digits12 r2 fun b r3 =>
          match r3 with
          | c' :: r4 =>
            if c' = sep then
              match digitsN 4 r4 with
              | some (y, rest) => k a b y rest
              | none => none
            else none
          | [] => none
      else none
    | [] => none

/-! ## `parseDate`: convert a date string to `YYYY-MM-DD` -/

/-- `/(\d{4})-(\d{2})-(\d{2})/` at the current position. -/
def matchIsoAt (s : Str) : Option (Str × Str × Str) :=
  match digitsN 4 s with
  | some (y, r1) =>
    match r1 with
    | c :: r2 =>
      if c = '-' then
        match digitsN 2 r2 with
        | some (m, r3) =>
          match r3 with
          | c' :: r4 =>
            if c' = '-' then
              match digitsN 2 r4 with
              | some (d, _) => some (y, m, d)
              | none => none
            else none
          | [] => none
        | none => none
      else none
    | [] => none
  | none => none

/-- First `(\d{4})-(\d{2})-(\d{2})` match in the string. -/
def isoFind (s : Str) : Option (Str × Str × Str) := findFirst matchIsoAt s

/-- First `(\d{1,2}).(\d{1,2}).(\d{4})` match with separator `sep`
(captures in source order). -/
def sepTripleFind (sep : Char) (s : Str) : Option (Str × Str × Str) :=
  findFirst (fun cs => numTriple sep cs (fun a b y _ => some (a, b, y))) s

/-- The lowercased month names, in the order of the source's table. -/
def monthNames : List Str :=
  ["january".data, "february".data, "march".data, "april".data, "may".data,
   "june".data, "july".data, "august".data, "september".data, "october".data,
   "november".data, "december".data]

/-- Tail `\s+(\d{4})` of the month-name grammars, keeping the day capture. -/
def dayYearTail (day : Str) (r4 : Str) : Option (Str × Str) :=
  match wsPlus r4 with
  | some r5 =>
    match digitsN 4 r5 with
    | some (y, _) => some (day, y)
    | none => none
  | none => none

/-- `monthName\s+(\d{1,2}),?\s+(\d{4})` (case-insensitive, searched anywhere):
returns (day, year). -/
def monthDY (name : Str) (s : Str) : Option (Str × Str) :=
  findFirst (fun cs =>
    match dropLitCI name cs with
    | some r1 =>
      match wsPlus r1 with
      | some r2 =>
        digits12 r2 fun day r3 =>
          -- `,?` is greedy: try consuming the comma first
          match r3 with
          | ',' :: r4 => orO (dayYearTail day r4) (dayYearTail day r3)
          | _ => dayYearTail day r3
      | none => none
    | none => none) s

/-- `(\d{1,2})\s+monthName\s+(\d{4})` (case-insensitive, searched anywhere):
returns (day, year). -/
def monthYD (name : Str) (s : Str) : Option (Str × Str) :=
  findFirst (fun cs =>
    digits12 cs fun day r1 =>
      match wsPlus r1 with
      | some r2 =>
        match dropLitCI name r2 with
        | some r3 => dayYearTail day r3
        | none => none
      | none => none) s

/-- One iteration of the source's month loop: for month index `idx` (0-based),
try the "Month Day, Year" regex, then "Day Month Year". -/
def monthTry (idx : Nat) (name : Str) (s : Str) : Option Str :=
  match monthDY name s with
  | some (day, y) => some (y ++ '-' :: pad2 (natDigits (idx + 1)) ++ '-' :: pad2 day)
  | none =>
    match monthYD name s with
    | some (day, y) => some (y ++ '-' :: pad2 (natDigits (idx + 1)) ++ '-' :: pad2 day)
    | none => none

/-- The source's `for (const monthName of monthNames)` loop. -/
def monthLoopGo (idx : Nat) : List Str → Str → Option Str
  | [], _ => none
  | n :: rest, s =>
    match monthTry idx n s with
    | some d => some d
    | none => monthLoopGo (idx + 1) rest s

def monthLoop (s : Str) : Option Str := monthLoopGo 0 monthNames s

/-- The body of `parseDate` on the trimmed input `s`: try ISO, then
`DD.MM.YYYY`, then `DD/MM/YYYY`-with-disambiguation, then the spelled-out
month forms.  The `if (y && m && d)` style truthiness guards of the source
are vacuous (the captures are nonempty by the shape of the patterns) and are
omitted. -/
def parseDateBody (s : Str) : Option Str :=
    match isoFind s with
    | some (y, m, d) => some (y ++ '-' :: pad2 m ++ '-' :: pad2 d)
    | none =>
      match sepTripleFind '.' s with
      | some (d, m, y) => some (y ++ '-' :: pad2 m ++ '-' :: pad2 d)
      | none =>
        match sepTripleFind '/' s with
        | some (a, b, y) =>
          if 12 < digitsToNat a then
            -- day = a, month = b
            some (y ++ '-' :: pad2 b ++ '-' :: pad2 a)
          else if 12 < digitsToNat b then
            -- month = a, day = b
            some (y ++ '-' :: pad2 a ++ '-' :: pad2 b)
          else
            some (y ++ '-' :: pad2 a ++ '-' :: pad2 b)
        | none => monthLoop s

/-- `parseDate` of the source: length guard, then `parseDateBody` on the
trimmed string. -/
def parseDate (str : Str) : Option Str :=
  if str = [] ∨ 60 < str.length then none else parseDateBody (trimStr str)

/-- `parseInt(parsedDate.slice(0, 4), 10)` (`NaN` when no leading digit, in
which case the plausibility comparisons are false). -/
def yearNatOf (d : Str) : Nat := digitsToNat ((d.take 4).takeWhile isDigitChar)

/-- `isReasonableEventYear` of the source, with the ambient `new
Date().getFullYear()` made an explicit parameter `cy`. -/
def isReasonableEventYear (cy : Int) (d : Str) : Bool :=
  if (d.take 4).takeWhile isDigitChar = [] then false
  else decide (cy - 1 ≤ (yearNatOf d : Int)) && decide ((yearNatOf d : Int) ≤ cy + 2)

/-! ## `extractDate`: find the most plausible event date in the text -/

/-- Body of `/(?:^|\n)\s*(?:Date|Datum)\s*:\s*([^\n]+)/im` after the line
anchor: `\s*` (greedy, can cross newlines, deterministic before a letter),
the alternation `Date|Datum`, `\s*:`, then `\s*([^\n]+)` with the quantifier
backtracking of `capAfterSepStar`. -/
def dateLabelAt (s : Str) : Option Str :=
  let s1 := s.dropWhile isWs
  let after : Str → Option Str := fun s2 =>
    match s2.dropWhile isWs with
    | ':' :: s3 => capAfterSepStar isWs (fun c => c ≠ '\n') s3
    | _ => none
  orO ((dropLitCI "date".data s1).bind after)
      ((dropLitCI "datum".data s1).bind after)

/-- One position of `/(?:when|event date|show date|concert date|veranstaltungsdatum)[\s:]+([^\n]+)/i`:
alternatives are tried in source order; the spaces inside the alternatives are
literal. -/
def otherDateLabelAt (s : Str) : Option Str :=
  let alts := ["when".data, "event date".data, "show date".data,
               "concert date".data, "veranstaltungsdatum".data]
  alts.foldr
    (fun lbl acc =>
      orO ((dropLitCI lbl s).bind (capAfterSepPlus sepWsColon (fun c => c ≠ '\n'))) acc)
    none

/-- First match of the standalone `\d{1,2}.\d{1,2}.\d{4}` pattern with
separator `sep`, returned as the matched substring (`m[0]`). -/
def sepDateScan (sep : Char) (text : Str) : Option Str :=
  findFirst (fun cs => numTriple sep cs
    (fun a b y _ => some (a ++ sep :: b ++ sep :: y))) text

/-- First match of `/\d{4}-\d{2}-\d{2}/`, as the matched substring. -/
def isoDateScan (text : Str) : Option Str :=
  findFirst (fun cs => (matchIsoAt cs).map
    (fun (y, m, d) => y ++ '-' :: m ++ '-' :: d)) text

/-- The `\s+(\d{4})` tail of the standalone month-name regex: `pre` is the
already-matched text (month name, whitespace run, day) and `comma` the
optional comma; the result is the matched substring `m[0]`. -/
def monthTailMk (pre comma : Str) (r5 : Str) : Option Str :=
  match r5 with
  | c' :: r6 =>
    if isWs c' then
      match digitsN 4 (r6.dropWhile isWs) with
      | some (y, _) => some (pre ++ comma ++ (c' :: r6.takeWhile isWs) ++ y)
      | none => none
    else none
  | [] => none

/-- One month-name alternative of the standalone regex
`monthName\s+\d{1,2},?\s+\d{4}` at the current position (case-insensitive);
returns the matched substring. -/
def monthScanName (name : Str) (cs : Str) : Option Str :=
  match dropLitCI name cs with
  | some r1 =>
    match r1 with
    | c :: r2 =>
      if isWs c then
        let r3 := r2.dropWhile isWs
        let wsRun := c :: r2.takeWhile isWs
        digits12 r3 fun day r4 =>
          match r4 with
          | ',' :: r5 =>
            orO (monthTailMk (name ++ wsRun ++ day) [','] r5)
                (monthTailMk (name ++ wsRun ++ day) [] r4)
          | _ => monthTailMk (name ++ wsRun ++ day) [] r4
      else none
    | [] => none
  | none => none

/-- One position of the standalone month-name regex
`/(?:january|...|december)\s+\d{1,2},?\s+\d{4}/i`; the alternatives are tried
in source order.  Only the "Month Day, Year" order appears in this scan. -/
def monthScanAt (cs : Str) : Option Str :=
  monthNames.foldr (fun name acc => orO (monthScanName name cs) acc) none

/-- Substring-preserving month-name scan.  The reconstructed `m[0]` uses the
lowercased month name; `parseDate` matches it case-insensitively, so the
result of `extractDate` is unaffected. -/
def monthScan (text : Str) : Option Str := findFirst monthScanAt text

/-- One stage of `extractDate`: if a candidate substring was found, parse it
and return it when the year is plausible, otherwise fall through. -/
def stageDate (cy : Int) (cand : Option Str) (fb : Option Str) : Option Str :=
  match cand with
  | none => fb
  | some cstr =>
    match parseDate cstr with
    | none => fb
    | some p => if isReasonableEventYear cy p then some p else fb

/-- `extractDate` of the source: event-date label, other date labels, then the
standalone scans (dot, ISO, slash, month-name) in that order. -/
def extractDate (cy : Int) (text : Str) : Option Str :=
  stageDate cy (findAtLineStarts dateLabelAt true text)
    (stageDate cy (findFirst otherDateLabelAt text)
      (stageDate cy (sepDateScan '.' text)
        (stageDate cy (isoDateScan text)
          (stageDate cy (sepDateScan '/' text)
            (stageDate cy (monthScan text) none)))))

/-! ## `extractLabel` -/

/-- Match the pattern obtained from a label by
`label.replace(/\s+/g, "\\s+")`: literal characters case-insensitively, each
whitespace run of the label as one `\s+` (the Boolean flag records that the
current pattern whitespace run has already emitted its `\s+`). -/
def matchPatGo : Bool → Str → Str → Option Str
  | _, [], cs => some cs
  | skipping, p :: pt, cs =>
    if isWs p then
      if skipping then matchPatGo true pt cs
      else
        match wsPlus cs with
        | some cs' => matchPatGo true pt cs'
        | none => none
    else
      match cs with
      | [] => none
      | c :: ct => if eqCI c p then matchPatGo false pt ct else none

def matchPat (pat cs : Str) : Option Str := matchPatGo false pat cs

/-- `extractLabel` of the source: for each label in order, find the first
match of `` `${label}[\s:]+([^\n<]+)` `` (case-insensitive); trim, collapse
whitespace and truncate the capture, and return it if nonempty, otherwise try
the next label. -/
def extractLabel (text : Str) : List Str → Option Str
  | [] => none
  | l :: ls =>
    match findFirst
        (fun cs => (matchPat l cs).bind
          (capAfterSepPlus sepWsColon (fun c => c ≠ '\n' && c ≠ '<'))) text with
    | some m1 =>
      let value := (collapseWs (trimStr m1)).take 200
      if value ≠ [] then some value else extractLabel text ls
    | none => extractLabel text ls

/-! ## Vendor-specific (EVENTIM) extractors -/

/-- Tail of the EVENTIM subject pattern after the lazy capture:
`\s*-\s*order\s+number\s+\d+` (each step deterministic). -/
def eventimTailOk (t : Str) : Bool :=
  match t.dropWhile isWs with
  | '-' :: t2 =>
    match dropLitCI "order".data (t2.dropWhile isWs) with
    | some t3 =>
      match wsPlus t3 with
      | some t4 =>
        match dropLitCI "number".data t4 with
        | some t5 =>
          match wsPlus t5 with
          | some t6 =>
            match t6 with
            | c :: _ => isDigitChar c
            | [] => false
          | none => false
        | none => false
      | none => false
    | none => false
  | _ => false

/-- The lazy capture `(.+?)` (dot excludes newlines): grow the capture one
character at a time until the tail matches. -/
def lazyCapGo (acc : Str) : Str → Option Str
  | [] => none
  | c :: t =>
    if c = '\n' then none
    else
      let acc' := acc ++ [c]
      if eventimTailOk t then some acc' else lazyCapGo acc' t

/-- `\s*` before the lazy capture, with greedy backtracking (on failure the
capture may start on a whitespace character). -/
def lazyCapAfterWs : Str → Option Str
  | [] => none
  | c :: t =>
    if isWs c then
      match lazyCapAfterWs t with
      | some r => some r
      | none => lazyCapGo [] (c :: t)
    else lazyCapGo [] (c :: t)

/-- `/\bEVENTIM\s+order\s*:\s*(.+?)\s*-\s*order\s+number\s+\d+/i` at one
position (the word boundary is checked by the `findBdry` driver). -/
def eventimSubjectAt (cs : Str) : Option Str :=
  match dropLitCI "eventim".data cs with
  | some r1 =>
    match wsPlus r1 with
    | some r2 =>
      match dropLitCI "order".data r2 with
      | some r3 =>
        match r3.dropWhile isWs with
        | ':' :: r4 => lazyCapAfterWs r4
        | _ => none
      | none => none
    | none => none
  | none => none

/-- `extractEventimShowFromSubject` of the source. -/
def extractEventimShowFromSubject (subject : Str) : Option Str :=
  (findBdry eventimSubjectAt true subject).map (fun cap => (trimStr cap).take 200)

/-- The result record of `extractEventimArtistCityDate` (its `date` field is
always the non-null `parseDate` result in the source, so it is a plain
string here). -/
structure EventimACD where
  showName : Str
  city : Str
  date : Str
deriving DecidableEq, Repr

/-- Greedy `([^,\n]+)` at this position followed by a literal `,`. -/
def capSegHere (cs : Str) : Option (Str × Str) :=
  let x := cs.takeWhile (fun c => c ≠ ',' && c ≠ '\n')
  if x = [] then none
  else
    match cs.drop x.length with
    | ',' :: r => some (x, r)
    | _ => none

/-- `,\s*([^,\n]+)` followed by `,`: the greedy `\s*` backtracks, so the
capture may begin on a non-newline whitespace character when the segment
before the next comma is otherwise empty.  Returns the capture and the
remainder after the closing comma. -/
def capCommaSeg : Str → Option (Str × Str)
  | [] => none
  | c :: t =>
    if isWs c then
      match capCommaSeg t with
      | some r => some r
      | none => if c ≠ '\n' then capSegHere (c :: t) else none
    else capSegHere (c :: t)

/-- `\s*$` under the `m` flag: only whitespace (and then a newline or the end
of the string) may follow. -/
def lineEndOk (rest : Str) : Bool :=
  match rest.dropWhile (fun c => isWs c && c ≠ '\n') with
  | [] => true
  | c :: _ => c = '\n'

/-- Shared part of both EVENTIM body regexes after the first capture's comma:
`\s*([^,\n]+),\s*(\d{1,2}\.\d{1,2}\.\d{4})`, then the end test `endOk`. -/
def tripleTail (endOk : Str → Bool) (c1 : Str) (r1 : Str) :
    Option (Str × Str × Str) :=
  match capCommaSeg r1 with
  | some (c2, r2) =>
    numTriple '.' (r2.dropWhile isWs) fun a b y rest =>
      if endOk rest then some (c1, c2, a ++ '.' :: b ++ '.' :: y) else none
  | none => none

/-- `/^([^,\n]+),\s*([^,\n]+),\s*(\d{1,2}\.\d{1,2}\.\d{4})\s*$/m` at a line
start. -/
def matchTripleLine (cs : Str) : Option (Str × Str × Str) :=
  let c1 := cs.takeWhile (fun c => c ≠ ',' && c ≠ '\n')
  if c1 = [] then none
  else
    match cs.drop c1.length with
    | ',' :: r1 => tripleTail lineEndOk c1 r1
    | _ => none

/-- `/([^,\n]+),\s*([^,\n]+),\s*(\d{1,2}\.\d{1,2}\.\d{4})\b/` at any
position; the trailing `\b` requires a non-word character (or the end) after
the year. -/
def matchTripleInline (cs : Str) : Option (Str × Str × Str) :=
  let c1 := cs.takeWhile (fun c => c ≠ ',' && c ≠ '\n')
  if c1 = [] then none
  else
    match cs.drop c1.length with
    | ',' :: r1 =>
      tripleTail
        (fun rest => match rest with
          | [] => true
          | c :: _ => !isWordChar c) c1 r1
    | _ => none

/-- `extractEventimArtistCityDate` of the source: full-line match first, then
the inline fallback; the date must parse and have a plausible year.  The
`!m[1]`-style guards are vacuous (the captures are nonempty). -/
def extractEventimArtistCityDate (cy : Int) (text : Str) : Option EventimACD :=
  match orO (findAtLineStarts matchTripleLine true text)
            (findFirst matchTripleInline text) with
  | none => none
  | some (sh, ci, dstr) =>
    match parseDate dstr with
    | none => none
    | some p =>
      if isReasonableEventYear cy p then
        some ⟨(trimStr sh).take 200, trimStr ci, p⟩
      else none

/-! ## Venue line, city sanitizer, capitalization -/

/-- `\d{4,5}` in CPS (greedy: five digits first, then four). -/
def digits45 (s : Str) (k : Str → Str → Option α) : Option α :=
  match digitsN 5 s with
  | some (d, r) =>
    match k d r with
    | some v => some v
    | none =>
      match digitsN 4 s with
      | some (d', r') => k d' r'
      | none => none
  | none =>
    match digitsN 4 s with
    | some (d', r') => k d' r'
    | none => none

/-- `.+$` (no `m` flag): at least one non-newline character reaching the end
of the string, or the position just before a final newline. -/
def dotPlusEnd (r : Str) : Bool :=
  let core := if r.getLast? = some '\n' then r.dropLast else r
  core ≠ [] && core.all (fun c => c ≠ '\n')

/-- `/^\d{4,5}\s+.+$/.test(last)`. -/
def postalTest (last : Str) : Bool :=
  (digits45 last (fun _ r =>
    match wsPlus r with
    | some r2 => if dotPlusEnd r2 then some () else none
    | none => none)).isSome

/-- `last.replace(/^\d{4,5}\s+/, "")`: drop the leading postal code and the
whitespace run after it (no-op when the prefix does not match). -/
def dropPostal (last : Str) : Str :=
  match digits45 last (fun _ r =>
    match wsPlus r with
    | some r2 => some r2
    | none => none) with
  | some r2 => r2
  | none => last

/-- `venueName.replace(/\s+/g, "").toUpperCase()`. -/
def upperNoWs (s : Str) : Str := (s.filter (fun c => !isWs c)).map Char.toUpper

/-- `parseVenueLine` of the source (`src/lib` version): first comma segment is
the venue name; a postal-code-prefixed last segment (or, failing the pattern,
the last segment itself) is the city candidate; the city candidate is kept
only when nonempty (JS truthiness) and at most 50 characters. -/
def parseVenueLine (venueLine : Str) : Str × Option Str :=
  let trimmed := trimStr venueLine
  if trimmed = [] then ("Unknown".data, none)
  else
    let parts := ((splitComma trimmed).map trimStr).filter (fun p => p ≠ [])
    let venueName := parts.head?.getD trimmed
    let cityFromVenue : Option Str :=
      match parts.getLast? with
      | some last =>
        if 1 < parts.length && postalTest last then some (trimStr (dropPostal last))
        else if 1 < parts.length then some last
        else none
      | none => none
    let cityFromVenue2 : Option Str :=
      match cityFromVenue with
      | some c => if c ≠ [] && c.length ≤ 50 then some c else none
      | none => none
    (if upperNoWs venueName = "SO36".data then "SO36".data else venueName,
     cityFromVenue2)

/-- `venueRaw.split(/\s+Promoter\s*:/i)[0]`: the text before the first
occurrence of whitespace + "Promoter" + optional whitespace + colon. -/
def promoAt (cs : Str) : Bool :=
  (match wsPlus cs with
   | some r1 =>
     match dropLitCI "promoter".data r1 with
     | some r2 =>
       match r2.dropWhile isWs with
       | ':' :: _ => true
       | _ => false
     | none => false
   | none => false)

def promoHead : Str → Str
  | [] => []
  | c :: t => if promoAt (c :: t) then [] else c :: promoHead t

/-- `looksLikeSentence` test
`/[?*]|https?:\/\/|\b(you|can|so that|at any|when logged|please|click)\b/i`. -/
def urlAt (cs : Str) : Option Unit :=
  match dropLitCI "http".data cs with
  | some r =>
    orO ((dropLitCI "s".data r).bind (dropLitCI "://".data))
        (dropLitCI "://".data r) |>.map (fun _ => ())
  | none => none

def sentenceKeywords : List Str :=
  ["you".data, "can".data, "so that".data, "at any".data,
   "when logged".data, "please".data, "click".data]

/-- One position of `\b(keyword...)\b` (leading boundary handled by the
`findBdry` driver; the trailing boundary is checked here). -/
def keywordAt (cs : Str) : Option Unit :=
  sentenceKeywords.foldr
    (fun kw acc =>
      orO
        (match dropLitCI kw cs with
         | some r =>
           match r with
           | [] => some ()
           | c :: _ => if isWordChar c then none else some ()
         | none => none)
        acc)
    none

def looksLikeSentence (t : Str) : Bool :=
  t.any (fun c => c = '?' || c = '*') ||
  (findFirst urlAt t).isSome ||
  (findBdry keywordAt true t).isSome

/-- Character class `[a-zA-ZÀ-ɏ\s\-'.]` of the as-is city test. -/
def cityCharOk (c : Char) : Bool :=
  ('a' ≤ c && c ≤ 'z') || ('A' ≤ c && c ≤ 'Z') ||
  (0xC0 ≤ c.toNat && c.toNat ≤ 0x24F) || isWs c ||
  c = '-' || c = '\'' || c = '.'

/-- Token filter `/^[a-zA-ZÀ-ɏ\-']{2,40}$/`. -/
def wordCityOk (w : Str) : Bool :=
  2 ≤ w.length && w.length ≤ 40 &&
  w.all (fun c =>
    ('a' ≤ c && c ≤ 'z') || ('A' ≤ c && c ≤ 'Z') ||
    (0xC0 ≤ c.toNat && c.toNat ≤ 0x24F) || c = '-' || c = '\'')

/-- `sanitizeCityFromLabel` of the source. -/
def sanitizeCityFromLabel (value : Str) : Option Str :=
  let trimmed := trimStr value
  if trimmed = [] || 200 < trimmed.length then none
  else
    if !looksLikeSentence trimmed && trimmed.length ≤ 50 &&
        trimmed.all cityCharOk && (splitWs trimmed).length ≤ 3 then
      some trimmed
    else
      ((splitWs trimmed).filter wordCityOk).getLast?

/-- `capitalizeCity` of the `part_004` variant: each whitespace-delimited word
capitalized, rest lowercased (ASCII model of `toUpperCase`/`toLowerCase`). -/
def capitalizeCity (city : Str) : Str :=
  List.intercalate " ".data
    ((splitWs (trimStr city)).map (fun w =>
      match w with
      | [] => []
      | c :: t => c.toUpper :: t.map Char.toLower))

/-- `extractCityFromVenueLine` of the `part_004` variant:
`/\d{4,5}\s+([A-Za-zÀ-ɏ\-']+(?:\s+[A-Za-zÀ-ɏ\-']+)?)/`. -/
def cityWordChar (c : Char) : Bool :=
  ('a' ≤ c && c ≤ 'z') || ('A' ≤ c && c ≤ 'Z') ||
  (0xC0 ≤ c.toNat && c.toNat ≤ 0x24F) || c = '-' || c = '\''

def extractCityFromVenueLine (venueLine : Str) : Option Str :=
  match findFirst
      (fun cs => digits45 cs (fun _ r =>
        match r with
        | c :: t =>
          if isWs c then
            let r2 := t.dropWhile isWs
            let w1 := r2.takeWhile cityWordChar
            if w1 = [] then none
            else
              let r3 := r2.drop w1.length
              -- optional second word, greedy
              match r3 with
              | c' :: t' =>
                if isWs c' then
                  let run2 := c' :: t'.takeWhile isWs
                  let w2 := (t'.dropWhile isWs).takeWhile cityWordChar
                  if w2 = [] then some w1 else some (w1 ++ run2 ++ w2)
                else some w1
              | [] => some w1
          else none
        | [] => none)) venueLine with
  | some cap =>
    let city := trimStr cap
    if 2 ≤ city.length && city.length ≤ 50 then some city else none
  | none => none

/-- `parseVenueLine` of the `part_004` variant: the postal-code city search
runs over the whole line first; the comma-segment fallback is as in the
`src/lib` version. -/
def parseVenueLineV2 (venueLine : Str) : Str × Option Str :=
  let trimmed := trimStr venueLine
  if trimmed = [] then ("Unknown".data, none)
  else
    let parts := ((splitComma trimmed).map trimStr).filter (fun p => p ≠ [])
    let venueName := parts.head?.getD trimmed
    let fallback : Option Str :=
      match parts.getLast? with
      | some last =>
        if 1 < parts.length && postalTest last then some (trimStr (dropPostal last))
        else if 1 < parts.length then some last
        else none
      | none => none
    let cityFromVenue : Option Str := orO (extractCityFromVenueLine trimmed) fallback
    let cityFromVenue2 : Option Str :=
      match cityFromVenue with
      | some c => if c ≠ [] && c.length ≤ 50 then some c else none
      | none => none
    (if upperNoWs venueName = "SO36".data then "SO36".data else venueName,
     cityFromVenue2)

/-! ## The orchestrator `parseShowFromEmail` -/

/-- The output record (`ParsedShow` of the source; the `show` field is named
`showName` because `show` is a Lean keyword). -/
structure ParsedShow where
  showName : Str
  date : Str
  city : Str
  venue : Str
deriving DecidableEq, Repr

def venueLabels : List Str :=
  ["venue".data, "location".data, "where".data, "place".data, "at venue".data,
   "ort".data, "veranstaltungsort".data, "theatre".data, "theater".data,
   "arena".data, "hall".data]

def cityLabelsA : List Str := ["city".data, "stadt".data, "location".data]

def cityLabelsB : List Str := ["ort".data]

def showLabels : List Str :=
  ["event".data, "veranstaltung".data, "concert".data, "konzert".data,
   "show".data, "performance".data, "artist".data, "act".data,
   "event name".data, "eventtitel".data]

/-- `const text = body.includes("<") ? stripHtml(body) : body`. -/
def theText (body : Str) : Str :=
  if body.contains '<' then stripHtml body else body

/-- `` const combined = `${subject}\n${text}` ``. -/
def combinedOf (subject body : Str) : Str := subject ++ '\n' :: theText body

/-- `const date = (eventimFromBody ? eventimFromBody.date : null) || extractDate(combined)`. -/
def dateChain (cy : Int) (subject body : Str) : Option Str :=
  jsOrO ((extractEventimArtistCityDate cy (theText body)).map (·.date))
        (extractDate cy (combinedOf subject body))

/-- The venue pipeline: `extractLabel` over the venue labels, trimmed at a
"Promoter:" continuation, then `parseVenueLine` (on `""` when no label
matched). -/
def venueInfoOf (subject body : Str) : Str × Option Str :=
  let venueRaw := extractLabel (combinedOf subject body) venueLabels
  let venueLine := venueRaw.map (fun v => trimStr (promoHead v))
  parseVenueLine (venueLine.getD [])

/-- `const cityFromLabel = extractLabel(combined, ["city","stadt","location"]) || extractLabel(combined, ["ort"])`. -/
def cityFromLabelOf (subject body : Str) : Option Str :=
  jsOrO (extractLabel (combinedOf subject body) cityLabelsA)
        (extractLabel (combinedOf subject body) cityLabelsB)

/-- The city precedence chain (`cityFinal` of the source): EVENTIM body city,
then city from the venue line, then sanitized city label, then `"Unknown"`;
at each step the empty string is falsy and falls through. -/
def cityFinalOf (cy : Int) (subject body : Str) : Str :=
  jsOrS ((extractEventimArtistCityDate cy (theText body)).map (·.city))
    (jsOrS (venueInfoOf subject body).2
      (jsOrS
        (match cityFromLabelOf subject body with
         | some v => if v = [] then none else sanitizeCityFromLabel v
         | none => none)
        "Unknown".data))

/-- The show-name precedence chain (`show` of the source): EVENTIM subject,
EVENTIM body, show/event labels, then the trimmed subject truncated to 200
characters. -/
def showChainOf (cy : Int) (subject body : Str) : Str :=
  jsOrS (extractEventimShowFromSubject subject)
    (jsOrS ((extractEventimArtistCityDate cy (theText body)).map (·.showName))
      (jsOrS (extractLabel (combinedOf subject body) showLabels)
        ((trimStr subject).take 200)))

/-- `parseShowFromEmail` of the source (`src/lib/parse-show-from-email.ts`),
with the ambient current year as the explicit parameter `cy`:
`if (!show || !date) return null`, else the record with the final trims and
defaults. -/
def parseShowFromEmail (cy : Int) (subject body : Str) : Option ParsedShow :=
  let date := dateChain cy subject body
  let showV := showChainOf cy subject body
  match date with
  | none => none
  | some d =>
    if showV = [] || d = [] then none
    else
      some ⟨trimStr showV, d, cityFinalOf cy subject body,
            (venueInfoOf subject body).1⟩

/-! The `part_004` variant of the parser: identical except that
`parseVenueLine` also searches the whole line for a postal-code city
(`extractCityFromVenueLine`) and the final city is passed through
`capitalizeCity`. -/

def venueInfoV2Of (subject body : Str) : Str × Option Str :=
  let venueRaw := extractLabel (combinedOf subject body) venueLabels
  let venueLine := venueRaw.map (fun v => trimStr (promoHead v))
  parseVenueLineV2 (venueLine.getD [])

def cityFinalV2Of (cy : Int) (subject body : Str) : Str :=
  jsOrS ((extractEventimArtistCityDate cy (theText body)).map (·.city))
    (jsOrS (venueInfoV2Of subject body).2
      (jsOrS
        (match cityFromLabelOf subject body with
         | some v => if v = [] then none else sanitizeCityFromLabel v
         | none => none)
        "Unknown".data))

/-- `parseShowFromEmail` of the `part_004` variant (city title-cased on
return). -/
def parseShowFromEmailV2 (cy : Int) (subject body : Str) : Option ParsedShow :=
  let date := dateChain cy subject body
  let showV := showChainOf cy subject body
  match date with
  | none => none
  | some d =>
    if showV = [] || d = [] then none
    else
      some ⟨trimStr showV, d, capitalizeCity (cityFinalV2Of cy subject body),
            (venueInfoV2Of subject body).1⟩

/-! ## Spec-side predicates (from the specification's words) -/

/-- Shape `YYYY-MM-DD`: four digits, dash, two digits, dash, two digits. -/
def dateShape (s : Str) : Bool :=
  match s with
  | [y1, y2, y3, y4, h1, m1, m2, h2, d1, d2] =>
    isDigitChar y1 && isDigitChar y2 && isDigitChar y3 && isDigitChar y4 &&
    h1 = '-' && isDigitChar m1 && isDigitChar m2 && h2 = '-' &&
    isDigitChar d1 && isDigitChar d2
  | _ => false

/-- Days in a month (Gregorian), for the spec's "day valid for that month". -/
def daysInMonth (y m : Nat) : Nat :=
  if m = 2 then
    if y % 4 = 0 && (y % 100 ≠ 0 || y % 400 = 0) then 29 else 28
  else if m = 4 || m = 6 || m = 9 || m = 11 then 30
  else 31

/-- The specification's "canonical YYYY-MM-DD calendar date (four-digit year,
month 01–12, day valid for that month)". -/
def validCalendarDate (s : Str) : Bool :=
  dateShape s &&
  (let y := digitsToNat (s.take 4)
   let m := digitsToNat ((s.drop 5).take 2)
   let d := digitsToNat ((s.drop 8).take 2)
   1 ≤ m && m ≤ 12 && 1 ≤ d && d ≤ daysInMonth y m)

/-- The claim's title-case property: each whitespace-delimited word has its
first character uppercased and the remaining characters lowercased. -/
def isTitleCased (s : Str) : Bool :=
  (splitWs s).all (fun w =>
    match w with
    | [] => true
    | c :: t => c.toUpper = c && t.all (fun x => x.toLower = x))

/-- A "good candidate" for the show-name chain: at most 200 characters, and
when nonempty its head is not whitespace (so a final trim keeps it
nonempty). -/
def goodCand (v : Str) : Prop :=
  v.length ≤ 200 ∧ ∀ c t, v = c :: t → isWs c = false

/-- `(l.dropWhile p).length ≤ l.length` (needed for `trim_length_le`). -/
theorem length_dropWhile_le (p : Char → Bool) (l : Str) :
    (l.dropWhile p).length ≤ l.length := by
  induction l with
  | nil => simp
  | cons c t ih =>
    rw [List.dropWhile_cons]
    split
    · exact Nat.le_succ_of_le ih
    · simp

/-! ## Supporting lemmas -/

theorem dropWhile_head {p : Char → Bool} :
    ∀ {l : Str} {c t}, l.dropWhile p = c :: t → p c = false := by
  intro l
  induction l with
  | nil => intro c t h; simp at h
  | cons a l ih =>
    intro c t h
    rw [List.dropWhile_cons] at h
    split at h
    · exact ih h
    · next hpa =>
        cases h
        cases hq : p a with
        | true => exact absurd hq hpa
        | false => rfl

theorem trimStr_sub : ∀ s : Str, ∃ w, s.dropWhile isWs = trimStr s ++ w := by
  intro s
  refine ⟨((s.dropWhile isWs).reverse.takeWhile isWs).reverse, ?_⟩
  unfold trimStr
  conv_lhs => rw [← List.reverse_reverse (s.dropWhile isWs),
    ← @List.takeWhile_append_dropWhile Char isWs ((s.dropWhile isWs).reverse)]
  rw [List.reverse_append]

theorem trim_head {s : Str} {c t} (h : trimStr s = c :: t) : isWs c = false := by
  obtain ⟨w, hw⟩ := trimStr_sub s
  rw [h] at hw
  exact dropWhile_head hw

theorem trim_ne_nil_of_head {c : Char} {t : Str} (hc : isWs c = false) :
    trimStr (c :: t) ≠ [] := by
  unfold trimStr
  rw [List.dropWhile_cons, hc]
  simp only [Bool.false_eq_true, if_false]
  intro h
  rw [List.reverse_eq_nil_iff, List.dropWhile_eq_nil_iff] at h
  have := h c (by simp)
  rw [hc] at this
  cases this

theorem trim_length_le (s : Str) : (trimStr s).length ≤ s.length := by
  unfold trimStr
  calc ((s.dropWhile isWs).reverse.dropWhile isWs).reverse.length
      = ((s.dropWhile isWs).reverse.dropWhile isWs).length := by
        rw [List.length_reverse]
    _ ≤ (s.dropWhile isWs).reverse.length := length_dropWhile_le ..
    _ = (s.dropWhile isWs).length := by rw [List.length_reverse]
    _ ≤ s.length := length_dropWhile_le ..

theorem collapse_head {c : Char} {t : Str} (hc : isWs c = false) :
    collapseWs (c :: t) = c :: collapseWs t := by
  rw [collapseWs, hc]
  simp

theorem goodCand_trim_take (x : Str) : goodCand ((trimStr x).take 200) := by
  constructor
  · rw [List.length_take]; exact Nat.min_le_left ..
  · intro c t h
    match hx : trimStr x with
    | [] => rw [hx] at h; simp at h
    | c' :: t' =>
      rw [hx] at h
      rw [List.take_cons (by omega : 0 < 200)] at h
      cases h
      exact trim_head hx

theorem goodCand_collapse_trim_take (x : Str) :
    goodCand ((collapseWs (trimStr x)).take 200) := by
  constructor
  · rw [List.length_take]; exact Nat.min_le_left ..
  · intro c t h
    match hx : trimStr x with
    | [] => rw [hx] at h; simp [collapseWs] at h
    | c' :: t' =>
      have hc' : isWs c' = false := trim_head hx
      rw [hx, collapse_head hc', List.take_cons (by omega : 0 < 200)] at h
      cases h
      exact hc'

theorem goodCand_trim_ne_nil {v : Str} (hg : goodCand v) (hv : v ≠ []) :
    trimStr v ≠ [] := by
  match h : v with
  | [] => exact absurd rfl hv
  | c :: t => exact trim_ne_nil_of_head (hg.2 c t rfl)

/-! Case-analysis helpers for the JavaScript `||` chains. -/

theorem jsOrS_cases {a : Option Str} {b v : Str} (h : jsOrS a b = v) :
    (∃ s, a = some s ∧ s ≠ [] ∧ v = s) ∨ v = b := by
  unfold jsOrS at h
  match a with
  | none => exact Or.inr h.symm
  | some s =>
    simp only at h
    split at h
    · exact Or.inr h.symm
    · exact Or.inl ⟨s, rfl, by assumption, h.symm⟩

theorem jsOrS_ne_nil {a : Option Str} {b : Str} (hb : b ≠ []) :
    jsOrS a b ≠ [] := by
  unfold jsOrS
  match a with
  | none => exact hb
  | some s =>
    simp only
    split
    · exact hb
    · assumption

theorem jsOrO_cases {a b : Option Str} {d : Str} (h : jsOrO a b = some d) :
    (a = some d ∧ d ≠ []) ∨ b = some d := by
  unfold jsOrO at h
  match a with
  | none => exact Or.inr h
  | some s =>
    simp only at h
    split at h
    · exact Or.inr h
    · cases h; exact Or.inl ⟨rfl, by assumption⟩

/-! ## Shape of `parseDate` results -/

theorem digitsN_spec :
    ∀ {n : Nat} {s t r : Str}, digitsN n s = some (t, r) →
      t.length = n ∧ t.all isDigitChar = true := by
  intro n
  induction n with
  | zero => intro s t r h; cases h; simp
  | succ n ih =>
    intro s t r h
    match s with
    | [] => cases h
    | c :: cs =>
      rw [digitsN] at h
      split at h
      · match hrec : digitsN n cs with
        | some (d, r') =>
          rw [hrec] at h
          cases h
          have := ih hrec
          refine ⟨by simp [this.1], ?_⟩
          simp only [List.all_cons, Bool.and_eq_true]
          exact ⟨by assumption, this.2⟩
        | none => rw [hrec] at h; cases h
      · cases h

theorem digits12_spec {s : Str} {k : Str → Str → Option α} {v : α}
    (h : digits12 s k = some v) :
    ∃ t r, 1 ≤ t.length ∧ t.length ≤ 2 ∧ t.all isDigitChar = true ∧
      k t r = some v := by
  match s with
  | [] => cases h
  | [a] =>
    rw [digits12] at h
    split at h
    · exact ⟨[a], [], by simp, by simp, by simp [*], h⟩
    · cases h
  | a :: b :: t =>
    rw [digits12] at h
    split at h
    · split at h
      · match hk : k [a, b] t with
        | some v' =>
          rw [hk] at h
          cases h
          exact ⟨[a, b], t, by simp, by simp, by simp [*], hk⟩
        | none =>
          rw [hk] at h
          exact ⟨[a], b :: t, by simp, by simp, by simp [*], h⟩
      · exact ⟨[a], b :: t, by simp, by simp, by simp [*], h⟩
    · cases h

theorem numTriple_spec {sep : Char} {s : Str}
    {k : Str → Str → Str → Str → Option α} {v : α}
    (h : numTriple sep s k = some v) :
    ∃ a b y r, 1 ≤ a.length ∧ a.length ≤ 2 ∧ a.all isDigitChar = true ∧
      1 ≤ b.length ∧ b.length ≤ 2 ∧ b.all isDigitChar = true ∧
      y.length = 4 ∧ y.all isDigitChar = true ∧ k a b y r = some v := by
  unfold numTriple at h
  obtain ⟨a, r1, ha1, ha2, ha3, h⟩ := digits12_spec h
  match r1 with
  | [] => cases h
  | c :: r2 =>
    simp only at h
    split at h
    · obtain ⟨b, r3, hb1, hb2, hb3, h⟩ := digits12_spec h
      match r3 with
      | [] => cases h
      | c' :: r4 =>
        simp only at h
        split at h
        · match hy : digitsN 4 r4 with
          | some (y, rest) =>
            rw [hy] at h
            have hys := digitsN_spec hy
            exact ⟨a, b, y, rest, ha1, ha2, ha3, hb1, hb2, hb3, hys.1, hys.2, h⟩
          | none => rw [hy] at h; cases h
        · cases h
    · cases h

theorem findFirst_ex {m : Str → Option α} :
    ∀ {s : Str} {v : α}, findFirst m s = some v → ∃ s', m s' = some v := by
  intro s
  induction s with
  | nil => intro v h; exact ⟨[], by rw [findFirst] at h; exact h⟩
  | cons c t ih =>
    intro v h
    rw [findFirst] at h
    match hm : m (c :: t) with
    | some w => rw [hm] at h; cases h; exact ⟨c :: t, hm⟩
    | none => rw [hm] at h; exact ih h

theorem findAtLineStarts_ex {m : Str → Option α} :
    ∀ {fl : Bool} {s : Str} {v : α},
      findAtLineStarts m fl s = some v → ∃ s', m s' = some v := by
  intro fl s
  induction s generalizing fl with
  | nil =>
    intro v h
    rw [findAtLineStarts] at h
    split at h
    · exact ⟨[], h⟩
    · cases h
  | cons c t ih =>
    intro v h
    rw [findAtLineStarts] at h
    match hc : (if fl = true then m (c :: t) else none) with
    | some w =>
      rw [hc] at h
      cases h
      cases fl with
      | true => simp only [if_true] at hc; exact ⟨c :: t, hc⟩
      | false => simp at hc
    | none => rw [hc] at h; exact ih h

theorem findBdry_ex {m : Str → Option α} :
    ∀ {fl : Bool} {s : Str} {v : α},
      findBdry m fl s = some v → ∃ s', m s' = some v := by
  intro fl s
  induction s generalizing fl with
  | nil =>
    intro v h
    rw [findBdry] at h
    split at h
    · exact ⟨[], h⟩
    · cases h
  | cons c t ih =>
    intro v h
    rw [findBdry] at h
    match hc : (if fl = true then m (c :: t) else none) with
    | some w =>
      rw [hc] at h
      cases h
      cases fl with
      | true => simp only [if_true] at hc; exact ⟨c :: t, hc⟩
      | false => simp at hc
    | none => rw [hc] at h; exact ih h

theorem pad2_spec {t : Str} (h1 : 1 ≤ t.length) (h2 : t.length ≤ 2)
    (h3 : t.all isDigitChar = true) :
    (pad2 t).length = 2 ∧ (pad2 t).all isDigitChar = true := by
  match t with
  | [a] =>
    refine ⟨by simp [pad2], ?_⟩
    simp only [List.all_cons, List.all_nil, Bool.and_eq_true] at h3
    have h0 : isDigitChar '0' = true := by decide
    simp [pad2, h0, h3.1]
  | [a, b] => exact ⟨by simp [pad2], by simpa [pad2] using h3⟩

theorem dateShape_mk {y m2 d2 : Str}
    (hy : y.length = 4) (hya : y.all isDigitChar = true)
    (hm : m2.length = 2) (hma : m2.all isDigitChar = true)
    (hd : d2.length = 2) (hda : d2.all isDigitChar = true) :
    dateShape (y ++ '-' :: m2 ++ '-' :: d2) = true := by
  match y, m2, d2 with
  | [y1, y2, y3, y4], [m1, m2'], [d1, d2'] =>
    simp only [List.all_cons, List.all_nil, Bool.and_eq_true] at hya hma hda
    simp only [List.cons_append, List.nil_append, dateShape]
    simp [hya.1, hya.2.1, hya.2.2.1, hya.2.2.2.1, hma.1, hma.2.1,
      hda.1, hda.2.1]

theorem dateShape_ne_nil {d : Str} (h : dateShape d = true) : d ≠ [] := by
  intro hd
  rw [hd] at h
  simp [dateShape] at h

theorem matchIsoAt_spec {s : Str} {y m d : Str}
    (h : matchIsoAt s = some (y, m, d)) :
    y.length = 4 ∧ y.all isDigitChar = true ∧ m.length = 2 ∧
    m.all isDigitChar = true ∧ d.length = 2 ∧ d.all isDigitChar = true := by
  unfold matchIsoAt at h
  match hy : digitsN 4 s with
  | none => rw [hy] at h; cases h
  | some (y', r1) =>
    rw [hy] at h
    dsimp only at h
    have hys := digitsN_spec hy
    match r1 with
    | [] => cases h
    | c :: r2 =>
      dsimp only at h
      split at h
      · match hm : digitsN 2 r2 with
        | none => rw [hm] at h; cases h
        | some (m', r3) =>
          rw [hm] at h
          dsimp only at h
          have hms := digitsN_spec hm
          match r3 with
          | [] => cases h
          | c' :: r4 =>
            dsimp only at h
            split at h
            · match hd : digitsN 2 r4 with
              | none => rw [hd] at h; cases h
              | some (d', r5) =>
                rw [hd] at h
                dsimp only at h
                have hds := digitsN_spec hd
                cases h
                exact ⟨hys.1, hys.2, hms.1, hms.2, hds.1, hds.2⟩
            · cases h
      · cases h

theorem dayYearTail_spec {day r4 : Str} {d y : Str}
    (h : dayYearTail day r4 = some (d, y)) :
    d = day ∧ y.length = 4 ∧ y.all isDigitChar = true := by
  unfold dayYearTail at h
  match h5 : wsPlus r4 with
  | none => rw [h5] at h; cases h
  | some r5 =>
    rw [h5] at h
    dsimp only at h
    match hy : digitsN 4 r5 with
    | none => rw [hy] at h; cases h
    | some (y', rest) =>
      rw [hy] at h
      dsimp only at h
      cases h
      have := digitsN_spec hy
      exact ⟨rfl, this.1, this.2⟩

theorem monthDY_spec {name s : Str} {d y : Str}
    (h : monthDY name s = some (d, y)) :
    1 ≤ d.length ∧ d.length ≤ 2 ∧ d.all isDigitChar = true ∧
    y.length = 4 ∧ y.all isDigitChar = true := by
  obtain ⟨s', h⟩ := findFirst_ex h
  match h1 : dropLitCI name s' with
  | none => rw [h1] at h; cases h
  | some r1 =>
    rw [h1] at h
    dsimp only at h
    match h2 : wsPlus r1 with
    | none => rw [h2] at h; cases h
    | some r2 =>
      rw [h2] at h
      dsimp only at h
      obtain ⟨t, r3, ht1, ht2, ht3, hk⟩ := digits12_spec h
      try dsimp only at hk
      have fromTail : ∀ {r : Str}, dayYearTail t r = some (d, y) →
          1 ≤ d.length ∧ d.length ≤ 2 ∧ d.all isDigitChar = true ∧
          y.length = 4 ∧ y.all isDigitChar = true := by
        intro r hr
        obtain ⟨hd, hy1, hy2⟩ := dayYearTail_spec hr
        subst hd
        exact ⟨ht1, ht2, ht3, hy1, hy2⟩
      split at hk
      · rename_i r4
        unfold orO at hk
        match hA : dayYearTail t r4 with
        | some p =>
          rw [hA] at hk
          dsimp only at hk
          cases hk
          exact fromTail hA
        | none =>
          rw [hA] at hk
          dsimp only at hk
          exact fromTail hk
      · exact fromTail hk

theorem monthYD_spec {name s : Str} {d y : Str}
    (h : monthYD name s = some (d, y)) :
    1 ≤ d.length ∧ d.length ≤ 2 ∧ d.all isDigitChar = true ∧
    y.length = 4 ∧ y.all isDigitChar = true := by
  obtain ⟨s', h⟩ := findFirst_ex h
  obtain ⟨t, r1, ht1, ht2, ht3, hk⟩ := digits12_spec h
  try dsimp only at hk
  match h2 : wsPlus r1 with
  | none => rw [h2] at hk; cases hk
  | some r2 =>
    rw [h2] at hk
    dsimp only at hk
    match h3 : dropLitCI name r2 with
    | none => rw [h3] at hk; cases hk
    | some r3 =>
      rw [h3] at hk
      dsimp only at hk
      obtain ⟨hd, hy1, hy2⟩ := dayYearTail_spec hk
      subst hd
      exact ⟨ht1, ht2, ht3, hy1, hy2⟩

theorem digitChar_digit {m : Nat} (h : m ≤ 9) :
    isDigitChar (digitChar m) = true := by
  interval_cases m <;> decide

theorem natDigits_good {n : Nat} (h : n ≤ 99) :
    1 ≤ (natDigits n).length ∧ (natDigits n).length ≤ 2 ∧
    (natDigits n).all isDigitChar = true := by
  unfold natDigits
  split
  · refine ⟨by simp, by simp, ?_⟩
    simp [digitChar_digit (show n ≤ 9 by omega)]
  · refine ⟨by simp, by simp, ?_⟩
    have h1 : n / 10 ≤ 9 := by omega
    have h2 : n % 10 ≤ 9 := by omega
    simp [digitChar_digit h1, digitChar_digit h2]

theorem monthTry_shape {idx : Nat} {name s d : Str} (hidx : idx + 1 ≤ 99)
    (h : monthTry idx name s = some d) : dateShape d = true := by
  unfold monthTry at h
  have hnum := natDigits_good hidx
  have hpadm := pad2_spec hnum.1 hnum.2.1 hnum.2.2
  match hA : monthDY name s with
  | some (day, y) =>
    rw [hA] at h
    cases h
    obtain ⟨hd1, hd2, hd3, hy1, hy2⟩ := monthDY_spec hA
    have hpadd := pad2_spec hd1 hd2 hd3
    exact dateShape_mk hy1 hy2 hpadm.1 hpadm.2 hpadd.1 hpadd.2
  | none =>
    rw [hA] at h
    match hB : monthYD name s with
    | some (day, y) =>
      rw [hB] at h
      cases h
      obtain ⟨hd1, hd2, hd3, hy1, hy2⟩ := monthYD_spec hB
      have hpadd := pad2_spec hd1 hd2 hd3
      exact dateShape_mk hy1 hy2 hpadm.1 hpadm.2 hpadd.1 hpadd.2
    | none => rw [hB] at h; cases h

theorem monthLoopGo_shape :
    ∀ (names : List Str) (idx : Nat) {s d : Str}, idx + names.length ≤ 99 →
      monthLoopGo idx names s = some d → dateShape d = true := by
  intro names
  induction names with
  | nil => intro idx s d _ h; cases h
  | cons n rest ih =>
    intro idx s d hb h
    rw [monthLoopGo] at h
    match hA : monthTry idx n s with
    | some d' =>
      rw [hA] at h
      cases h
      exact monthTry_shape (by simp at hb; omega) hA
    | none =>
      rw [hA] at h
      exact ih (idx + 1) (by simp at hb ⊢; omega) h

theorem parseDateBody_shape {s d : Str} (h : parseDateBody s = some d) :
    dateShape d = true := by
  unfold parseDateBody at h
  match hIso : isoFind s with
  | some (y, m, dd) =>
    rw [hIso] at h
    cases h
    obtain ⟨s', hm⟩ := findFirst_ex hIso
    obtain ⟨hy1, hy2, hm1, hm2, hd1, hd2⟩ := matchIsoAt_spec hm
    have hpm := pad2_spec (by omega) (by omega) hm2
    have hpd := pad2_spec (by omega) (by omega) hd2
    exact dateShape_mk hy1 hy2 hpm.1 hpm.2 hpd.1 hpd.2
  | none =>
    rw [hIso] at h
    match hDot : sepTripleFind '.' s with
    | some triple =>
      rw [hDot] at h
      obtain ⟨s', hm⟩ := findFirst_ex hDot
      obtain ⟨a, b, y', r, ha1, ha2, ha3, hb1, hb2, hb3, hy1, hy2, hk⟩ :=
        numTriple_spec hm
      cases hk
      dsimp only at h
      cases h
      have hpm := pad2_spec hb1 hb2 hb3
      have hpd := pad2_spec ha1 ha2 ha3
      exact dateShape_mk hy1 hy2 hpm.1 hpm.2 hpd.1 hpd.2
    | none =>
      rw [hDot] at h
      match hSl : sepTripleFind '/' s with
      | some triple =>
        rw [hSl] at h
        obtain ⟨s', hm⟩ := findFirst_ex hSl
        obtain ⟨a', b', y', r, ha1, ha2, ha3, hb1, hb2, hb3, hy1, hy2, hk⟩ :=
          numTriple_spec hm
        cases hk
        dsimp only at h
        have hpa := pad2_spec ha1 ha2 ha3
        have hpb := pad2_spec hb1 hb2 hb3
        split at h
        · cases h
          exact dateShape_mk hy1 hy2 hpb.1 hpb.2 hpa.1 hpa.2
        · split at h
          · cases h
            exact dateShape_mk hy1 hy2 hpa.1 hpa.2 hpb.1 hpb.2
          · cases h
            exact dateShape_mk hy1 hy2 hpa.1 hpa.2 hpb.1 hpb.2
      | none =>
        rw [hSl] at h
        exact monthLoopGo_shape monthNames 0 (by decide) h

theorem parseDate_shape {s d : Str} (h : parseDate s = some d) :
    dateShape d = true := by
  unfold parseDate at h
  split at h
  · cases h
  · exact parseDateBody_shape h

theorem parseDate_ne_nil {s d : Str} (h : parseDate s = some d) : d ≠ [] :=
  dateShape_ne_nil (parseDate_shape h)

/-! ## Plausibility of every produced date -/

theorem stageDate_prop {cy : Int} {cand fb : Option Str} {d : Str}
    {P : Str → Prop}
    (hfb : ∀ e, fb = some e → P e)
    (hp : ∀ c p, parseDate c = some p → isReasonableEventYear cy p = true → P p)
    (h : stageDate cy cand fb = some d) : P d := by
  unfold stageDate at h
  match cand with
  | none => exact hfb d h
  | some cstr =>
    dsimp only at h
    match hc : parseDate cstr with
    | none => rw [hc] at h; exact hfb d h
    | some p =>
      rw [hc] at h
      dsimp only at h
      split at h
      · cases h
        exact hp cstr d hc (by assumption)
      · exact hfb d h

theorem extractDate_prop {cy : Int} {t d : Str}
    (h : extractDate cy t = some d) :
    isReasonableEventYear cy d = true ∧ dateShape d = true := by
  unfold extractDate at h
  have hp : ∀ c p, parseDate c = some p → isReasonableEventYear cy p = true →
      isReasonableEventYear cy p = true ∧ dateShape p = true :=
    fun c p hc hr => ⟨hr, parseDate_shape hc⟩
  refine stageDate_prop ?_ hp h
  intro e h
  refine stageDate_prop ?_ hp h
  intro e h
  refine stageDate_prop ?_ hp h
  intro e h
  refine stageDate_prop ?_ hp h
  intro e h
  refine stageDate_prop ?_ hp h
  intro e h
  refine stageDate_prop ?_ hp h
  intro e h
  cases h

theorem eventim_spec {cy : Int} {t : Str} {e : EventimACD}
    (h : extractEventimArtistCityDate cy t = some e) :
    isReasonableEventYear cy e.date = true ∧ dateShape e.date = true ∧
    (∃ sh, e.showName = (trimStr sh).take 200) ∧
    (∃ ci, e.city = trimStr ci) := by
  unfold extractEventimArtistCityDate at h
  match hf : orO (findAtLineStarts matchTripleLine true t)
      (findFirst matchTripleInline t) with
  | none => rw [hf] at h; cases h
  | some (sh, ci, dstr) =>
    rw [hf] at h
    dsimp only at h
    match hp : parseDate dstr with
    | none => rw [hp] at h; cases h
    | some p =>
      rw [hp] at h
      dsimp only at h
      split at h
      · cases h
        exact ⟨by assumption, parseDate_shape hp, ⟨sh, rfl⟩, ⟨ci, rfl⟩⟩
      · cases h

theorem dateChain_prop {cy : Int} {s b d : Str}
    (h : dateChain cy s b = some d) :
    isReasonableEventYear cy d = true ∧ dateShape d = true := by
  unfold dateChain at h
  rcases jsOrO_cases h with ⟨hev, _⟩ | hex
  · match he : extractEventimArtistCityDate cy (theText b) with
    | none => rw [he] at hev; cases hev
    | some e =>
      rw [he] at hev
      cases hev
      have := eventim_spec he
      exact ⟨this.1, this.2.1⟩
  · exact extractDate_prop hex

theorem dateChain_ne_nil {cy : Int} {s b d : Str}
    (h : dateChain cy s b = some d) : d ≠ [] :=
  dateShape_ne_nil (dateChain_prop h).2

/-- `isReasonableEventYear` unpacked into the year-window bounds. -/
theorem isReasonable_bounds {cy : Int} {d : Str}
    (h : isReasonableEventYear cy d = true) :
    cy - 1 ≤ (yearNatOf d : Int) ∧ (yearNatOf d : Int) ≤ cy + 2 := by
  unfold isReasonableEventYear at h
  split at h
  · cases h
  · simp only [Bool.and_eq_true, decide_eq_true_eq] at h
    exact h

/-! ## The show-name, city and venue chains -/

theorem extractLabel_form {t v : Str} :
    ∀ {ls : List Str}, extractLabel t ls = some v →
      (∃ m1, v = (collapseWs (trimStr m1)).take 200) ∧ v ≠ [] := by
  intro ls
  induction ls with
  | nil => intro h; cases h
  | cons l ls ih =>
    intro h
    rw [extractLabel] at h
    split at h
    · next m1 heq =>
        dsimp only at h
        split at h
        · cases h
          exact ⟨⟨m1, rfl⟩, by assumption⟩
        · exact ih h
    · exact ih h

theorem eventimSubject_form {s v : Str}
    (h : extractEventimShowFromSubject s = some v) :
    ∃ cap, v = (trimStr cap).take 200 := by
  unfold extractEventimShowFromSubject at h
  match hf : findBdry eventimSubjectAt true s with
  | none => rw [hf] at h; cases h
  | some cap =>
    rw [hf] at h
    cases h
    exact ⟨cap, rfl⟩

theorem jsOrS_good {a : Option Str} {b : Str}
    (ha : ∀ w, a = some w → goodCand w) (hb : goodCand b) :
    goodCand (jsOrS a b) := by
  unfold jsOrS
  match a with
  | none => exact hb
  | some w =>
    dsimp only
    split
    · exact hb
    · exact ha w rfl

theorem showChain_good (cy : Int) (s b : Str) :
    goodCand (showChainOf cy s b) := by
  unfold showChainOf
  refine jsOrS_good ?_ (jsOrS_good ?_ (jsOrS_good ?_ (goodCand_trim_take s)))
  · intro w hw
    obtain ⟨cap, hcap⟩ := eventimSubject_form hw
    rw [hcap]
    exact goodCand_trim_take cap
  · intro w hw
    match he : extractEventimArtistCityDate cy (theText b) with
    | none => rw [he] at hw; cases hw
    | some e =>
      rw [he] at hw
      have hwe : w = e.showName := by simpa using hw.symm
      rw [hwe]
      obtain ⟨sh, hsh⟩ := (eventim_spec he).2.2.1
      rw [hsh]
      exact goodCand_trim_take sh
  · intro w hw
    obtain ⟨⟨m1, hm1⟩, _⟩ := extractLabel_form hw
    rw [hm1]
    exact goodCand_collapse_trim_take m1

theorem parseVenueLine_ne_nil (l : Str) : (parseVenueLine l).1 ≠ [] := by
  rw [parseVenueLine]
  dsimp only
  split
  · simp
  · dsimp only
    split
    · simp
    · next hno _ =>
      match hh : (((splitComma (trimStr l)).map trimStr).filter
          (fun p => decide (p ≠ []))).head? with
      | some p =>
        dsimp only [Option.getD]
        have hmem := List.mem_of_mem_head? hh
        have := List.of_mem_filter hmem
        simpa using this
      | none =>
        dsimp only [Option.getD]
        assumption

theorem cityFinal_ne_nil (cy : Int) (s b : Str) : cityFinalOf cy s b ≠ [] := by
  unfold cityFinalOf
  refine jsOrS_ne_nil (jsOrS_ne_nil (jsOrS_ne_nil ?_))
  decide

/-- Destructor for a successful parse: the record is exactly the four chains,
the guard having ensured a nonempty show chain and date. -/
theorem parse_some_spec {cy : Int} {s b : Str} {r : ParsedShow}
    (h : parseShowFromEmail cy s b = some r) :
    ∃ d, dateChain cy s b = some d ∧ showChainOf cy s b ≠ [] ∧ d ≠ [] ∧
      r = ⟨trimStr (showChainOf cy s b), d, cityFinalOf cy s b,
           (venueInfoOf s b).1⟩ := by
  unfold parseShowFromEmail at h
  match hd : dateChain cy s b with
  | none => rw [hd] at h; cases h
  | some d =>
    rw [hd] at h
    dsimp only at h
    split at h
    · cases h
    · next hcond =>
      cases h
      simp only [Bool.or_eq_true, decide_eq_true_eq, not_or] at hcond
      exact ⟨d, rfl, hcond.1, hcond.2, rfl⟩

theorem parseV2_some_spec {cy : Int} {s b : Str} {r : ParsedShow}
    (h : parseShowFromEmailV2 cy s b = some r) :
    ∃ d, dateChain cy s b = some d ∧ showChainOf cy s b ≠ [] ∧ d ≠ [] ∧
      r = ⟨trimStr (showChainOf cy s b), d,
           capitalizeCity (cityFinalV2Of cy s b), (venueInfoV2Of s b).1⟩ := by
  unfold parseShowFromEmailV2 at h
  match hd : dateChain cy s b with
  | none => rw [hd] at h; cases h
  | some d =>
    rw [hd] at h
    dsimp only at h
    split at h
    · cases h
    · next hcond =>
      cases h
      simp only [Bool.or_eq_true, decide_eq_true_eq, not_or] at hcond
      exact ⟨d, rfl, hcond.1, hcond.2, rfl⟩

theorem venueInfo_ne_nil (s b : Str) : (venueInfoOf s b).1 ≠ [] := by
  unfold venueInfoOf
  exact parseVenueLine_ne_nil _

/-! ## Exact behaviour of the dot/slash grammars on arbitrary digit captures -/

theorem all_mem_digit {s : Str} {c : Char} (h : s.all isDigitChar = true)
    (hc : c ∈ s) : isDigitChar c = true := by
  rw [List.all_eq_true] at h
  exact h c hc

theorem digit_not_ws {c : Char} (h : isDigitChar c = true) : isWs c = false := by
  by_contra hw
  rw [Bool.not_eq_false] at hw
  simp only [isWs, Bool.or_eq_true, decide_eq_true_eq] at hw
  rcases hw with ((((h1 | h1) | h1) | h1) | h1) | h1 <;> subst h1 <;>
    exact absurd h (by decide)

theorem dropWhile_eq_self {p : Char → Bool} {s : Str}
    (h : ∀ c ∈ s, p c = false) : s.dropWhile p = s := by
  match s with
  | [] => rfl
  | c :: t =>
    rw [List.dropWhile_cons, h c (by simp)]
    simp

theorem trim_eq_self {s : Str} (h : ∀ c ∈ s, isWs c = false) :
    trimStr s = s := by
  unfold trimStr
  rw [dropWhile_eq_self h]
  rw [dropWhile_eq_self (fun c hc => h c (List.mem_reverse.mp hc))]
  exact List.reverse_reverse s

theorem digitsN_decomp :
    ∀ {n : Nat} {s t r : Str}, digitsN n s = some (t, r) → s = t ++ r := by
  intro n
  induction n with
  | zero => intro s t r h; cases h; rfl
  | succ n ih =>
    intro s t r h
    match s with
    | [] => cases h
    | c :: cs =>
      rw [digitsN] at h
      split at h
      · match hrec : digitsN n cs with
        | some (d, r') =>
          rw [hrec] at h
          cases h
          rw [List.cons_append]
          exact congrArg (c :: ·) (ih hrec)
        | none => rw [hrec] at h; cases h
      · cases h

theorem digitsN_exact :
    ∀ {t : Str} {n : Nat} (r : Str), t.length = n → t.all isDigitChar = true →
      digitsN n (t ++ r) = some (t, r) := by
  intro t
  induction t with
  | nil =>
    intro n r h1 _
    subst h1
    rfl
  | cons c t ih =>
    intro n r h1 h2
    subst h1
    simp only [List.all_cons, Bool.and_eq_true] at h2
    show digitsN (t.length + 1) (c :: (t ++ r)) = _
    rw [digitsN, if_pos h2.1, ih r rfl h2.2]

theorem digits12_split {s : Str} {k : Str → Str → Option α} {v : α}
    (h : digits12 s k = some v) :
    ∃ t r, s = t ++ r ∧ k t r = some v := by
  match s with
  | [] => cases h
  | [a] =>
    rw [digits12] at h
    split at h
    · exact ⟨[a], [], rfl, h⟩
    · cases h
  | a :: b :: t =>
    rw [digits12] at h
    split at h
    · split at h
      · match hk : k [a, b] t with
        | some v' => rw [hk] at h; cases h; exact ⟨[a, b], t, rfl, hk⟩
        | none => rw [hk] at h; exact ⟨[a], b :: t, rfl, h⟩
      · exact ⟨[a], b :: t, rfl, h⟩
    · cases h

theorem findFirst_suffix {m : Str → Option α} :
    ∀ {s : Str} {v : α}, findFirst m s = some v →
      ∃ s', s' <:+ s ∧ m s' = some v := by
  intro s
  induction s with
  | nil =>
    intro v h
    rw [findFirst] at h
    exact ⟨[], List.suffix_refl [], h⟩
  | cons c t ih =>
    intro v h
    rw [findFirst] at h
    match hm : m (c :: t) with
    | some w =>
      rw [hm] at h
      cases h
      exact ⟨c :: t, List.suffix_refl _, hm⟩
    | none =>
      rw [hm] at h
      obtain ⟨s', hsuf, hms⟩ := ih h
      exact ⟨s', hsuf.trans (List.suffix_cons c t), hms⟩

theorem matchIsoAt_dash {s : Str} {v : Str × Str × Str}
    (h : matchIsoAt s = some v) : '-' ∈ s := by
  unfold matchIsoAt at h
  match hy : digitsN 4 s with
  | none => rw [hy] at h; cases h
  | some (y', r1) =>
    rw [hy] at h
    dsimp only at h
    have hdec := digitsN_decomp hy
    match r1 with
    | [] => cases h
    | c :: r2 =>
      dsimp only at h
      split at h
      · next hc =>
        subst hc
        rw [hdec]
        simp
      · cases h

theorem isoFind_none {s : Str} (h : '-' ∉ s) : isoFind s = none := by
  match hf : isoFind s with
  | none => rfl
  | some v =>
    obtain ⟨s', hsuf, hm⟩ := findFirst_suffix hf
    exact absurd (hsuf.subset (matchIsoAt_dash hm)) h

theorem numTriple_mem {sep : Char} {s : Str}
    {k : Str → Str → Str → Str → Option α} {v : α}
    (h : numTriple sep s k = some v) : sep ∈ s := by
  unfold numTriple at h
  obtain ⟨t, r, hsr, hk⟩ := digits12_split h
  match r with
  | [] => cases hk
  | c :: r2 =>
    dsimp only at hk
    split at hk
    · next hc =>
      subst hc
      rw [hsr]
      simp
    · cases hk

theorem sepTripleFind_none {sep : Char} {s : Str} (h : sep ∉ s) :
    sepTripleFind sep s = none := by
  match hf : sepTripleFind sep s with
  | none => rfl
  | some v =>
    obtain ⟨s', hsuf, hm⟩ := findFirst_suffix hf
    exact absurd (hsuf.subset (numTriple_mem hm)) h

theorem numTripleK_exact {sep : Char} (hsep : isDigitChar sep = false)
    {d m y : Str}
    (hd2 : d.length ≤ 2) (hd3 : d.all isDigitChar = true)
    (hm2 : m.length ≤ 2) (hm3 : m.all isDigitChar = true)
    (hd1 : 1 ≤ d.length) (hm1 : 1 ≤ m.length)
    (hy1 : y.length = 4) (hy2 : y.all isDigitChar = true) :
    numTriple sep (d ++ sep :: m ++ sep :: y)
      (fun a b y _ => some ((a, b, y) : Str × Str × Str)) = some (d, m, y) := by
  have hy : digitsN 4 y = some (y, []) := by
    have h := digitsN_exact [] hy1 hy2
    simpa using h
  match d, hd1, hd2 with
  | [a], _, _ =>
    simp only [List.all_cons, List.all_nil, Bool.and_true] at hd3
    match m, hm1, hm2 with
    | [b], _, _ =>
      simp only [List.all_cons, List.all_nil, Bool.and_true] at hm3
      simp [numTriple, digits12, hd3, hm3, hsep, hy]
    | [b1, b2], _, _ =>
      simp only [List.all_cons, List.all_nil, Bool.and_true,
        Bool.and_eq_true] at hm3
      simp [numTriple, digits12, hd3, hm3.1, hm3.2, hsep, hy]
  | [a1, a2], _, _ =>
    simp only [List.all_cons, List.all_nil, Bool.and_true,
      Bool.and_eq_true] at hd3
    match m, hm1, hm2 with
    | [b], _, _ =>
      simp only [List.all_cons, List.all_nil, Bool.and_true] at hm3
      simp [numTriple, digits12, hd3.1, hd3.2, hm3, hsep, hy]
    | [b1, b2], _, _ =>
      simp only [List.all_cons, List.all_nil, Bool.and_true,
        Bool.and_eq_true] at hm3
      simp [numTriple, digits12, hd3.1, hd3.2, hm3.1, hm3.2, hsep, hy]

theorem sepTripleFind_exact {sep : Char} (hsep : isDigitChar sep = false)
    {d m y : Str}
    (hd1 : 1 ≤ d.length) (hd2 : d.length ≤ 2) (hd3 : d.all isDigitChar = true)
    (hm1 : 1 ≤ m.length) (hm2 : m.length ≤ 2) (hm3 : m.all isDigitChar = true)
    (hy1 : y.length = 4) (hy2 : y.all isDigitChar = true) :
    sepTripleFind sep (d ++ sep :: m ++ sep :: y) = some (d, m, y) := by
  have hmatch := numTripleK_exact hsep hd2 hd3 hm2 hm3 hd1 hm1 hy1 hy2
  match d, hd1 with
  | a :: d', _ =>
    unfold sepTripleFind
    simp only [List.cons_append, List.append_assoc] at hmatch ⊢
    rw [findFirst.eq_def]
    dsimp only
    rw [hmatch]

theorem sep_chars {sep : Char} {d m y : Str}
    (hd3 : d.all isDigitChar = true) (hm3 : m.all isDigitChar = true)
    (hy2 : y.all isDigitChar = true) :
    ∀ c ∈ (d ++ sep :: m ++ sep :: y), isDigitChar c = true ∨ c = sep := by
  intro c hc
  simp only [List.mem_append, List.mem_cons] at hc
  rcases hc with (hc | hc | hc) | (hc | hc)
  · exact Or.inl (all_mem_digit hd3 hc)
  · exact Or.inr hc
  · exact Or.inl (all_mem_digit hm3 hc)
  · exact Or.inr hc
  · exact Or.inl (all_mem_digit hy2 hc)

/-- `parseDate` on an arbitrary dot-separated date: always day.month.year. -/
theorem parseDate_dot_exact {d m y : Str}
    (hd1 : 1 ≤ d.length) (hd2 : d.length ≤ 2) (hd3 : d.all isDigitChar = true)
    (hm1 : 1 ≤ m.length) (hm2 : m.length ≤ 2) (hm3 : m.all isDigitChar = true)
    (hy1 : y.length = 4) (hy2 : y.all isDigitChar = true) :
    parseDate (d ++ '.' :: m ++ '.' :: y) =
      some (y ++ '-' :: pad2 m ++ '-' :: pad2 d) := by
  have hchar := @sep_chars '.' d m y hd3 hm3 hy2
  have hnws : ∀ c ∈ (d ++ '.' :: m ++ '.' :: y), isWs c = false := by
    intro c hc
    rcases hchar c hc with h | h
    · exact digit_not_ws h
    · subst h; decide
  have hnd : '-' ∉ (d ++ '.' :: m ++ '.' :: y) := by
    intro hmem
    rcases hchar '-' hmem with h | h
    · exact absurd h (by decide)
    · exact absurd h (by decide)
  have hne : (d ++ '.' :: m ++ '.' :: y) ≠ [] := by
    match d, hd1 with
    | a :: d', _ => simp
  unfold parseDate
  rw [if_neg ?_]
  · rw [trim_eq_self hnws]
    unfold parseDateBody
    rw [isoFind_none hnd]
    dsimp only
    rw [sepTripleFind_exact (by decide) hd1 hd2 hd3 hm1 hm2 hm3 hy1 hy2]
  · push_neg
    refine ⟨hne, ?_⟩
    simp only [List.length_append, List.length_cons]
    omega

/-- `parseDate` on an arbitrary slash-separated date: a first component over
12 is the day; otherwise the first component is the month. -/
theorem parseDate_slash_exact {a b y : Str}
    (ha1 : 1 ≤ a.length) (ha2 : a.length ≤ 2) (ha3 : a.all isDigitChar = true)
    (hb1 : 1 ≤ b.length) (hb2 : b.length ≤ 2) (hb3 : b.all isDigitChar = true)
    (hy1 : y.length = 4) (hy2 : y.all isDigitChar = true) :
    parseDate (a ++ '/' :: b ++ '/' :: y) =
      if 12 < digitsToNat a then some (y ++ '-' :: pad2 b ++ '-' :: pad2 a)
      else some (y ++ '-' :: pad2 a ++ '-' :: pad2 b) := by
  have hchar := @sep_chars '/' a b y ha3 hb3 hy2
  have hnws : ∀ c ∈ (a ++ '/' :: b ++ '/' :: y), isWs c = false := by
    intro c hc
    rcases hchar c hc with h | h
    · exact digit_not_ws h
    · subst h; decide
  have hnd : '-' ∉ (a ++ '/' :: b ++ '/' :: y) := by
    intro hmem
    rcases hchar '-' hmem with h | h
    · exact absurd h (by decide)
    · exact absurd h (by decide)
  have hndot : '.' ∉ (a ++ '/' :: b ++ '/' :: y) := by
    intro hmem
    rcases hchar '.' hmem with h | h
    · exact absurd h (by decide)
    · exact absurd h (by decide)
  have hne : (a ++ '/' :: b ++ '/' :: y) ≠ [] := by
    match a, ha1 with
    | c :: a', _ => simp
  unfold parseDate
  rw [if_neg ?_]
  · rw [trim_eq_self hnws]
    unfold parseDateBody
    rw [isoFind_none hnd]
    dsimp only
    rw [sepTripleFind_none hndot]
    dsimp only
    rw [sepTripleFind_exact (by decide) ha1 ha2 ha3 hb1 hb2 hb3 hy1 hy2]
    dsimp only
    by_cases h12 : 12 < digitsToNat a
    · rw [if_pos h12, if_pos h12]
    · rw [if_neg h12, if_neg h12]
      split <;> rfl
  · push_neg
    refine ⟨hne, ?_⟩
    simp only [List.length_append, List.length_cons]
    omega

/-! ## Stage-by-stage behaviour of the standalone date scan -/

theorem stageDate_none_cand (cy : Int) (fb : Option Str) :
    stageDate cy none fb = fb := rfl

theorem stageDate_none_fb {cy : Int} {cand : Option Str}
    (h : stageDate cy cand none = none) (fb : Option Str) :
    stageDate cy cand fb = fb := by
  unfold stageDate at h ⊢
  cases cand with
  | none => rfl
  | some cstr =>
    dsimp only at h ⊢
    cases hp : parseDate cstr with
    | none => rfl
    | some p =>
      rw [hp] at h
      dsimp only at h ⊢
      split at h
      · cases h
      · next hr => rw [if_neg hr]

theorem stageDate_some {cy : Int} {sub p : Str} {fb : Option Str}
    (h1 : parseDate sub = some p) (h2 : isReasonableEventYear cy p = true) :
    stageDate cy (some sub) fb = some p := by
  unfold stageDate
  dsimp only
  rw [h1]
  dsimp only
  rw [if_pos h2]

theorem foldr_orO_ex {f : Str → Option α} :
    ∀ {names : List Str} {v : α},
      names.foldr (fun n acc => orO (f n) acc) none = some v →
      ∃ n ∈ names, f n = some v := by
  intro names
  induction names with
  | nil => intro v h; cases h
  | cons n ns ih =>
    intro v h
    rw [List.foldr_cons] at h
    unfold orO at h
    cases hf : f n with
    | some w =>
      rw [hf] at h
      dsimp only at h
      cases h
      exact ⟨n, by simp, hf⟩
    | none =>
      rw [hf] at h
      dsimp only at h
      obtain ⟨n', hn', hfn⟩ := ih h
      exact ⟨n', by simp [hn'], hfn⟩

theorem monthTailMk_shape {pre comma r5 sub : Str}
    (h : monthTailMk pre comma r5 = some sub) :
    ∃ w2 y, sub = pre ++ comma ++ w2 ++ y := by
  unfold monthTailMk at h
  cases r5 with
  | nil => cases h
  | cons c' r6 =>
    dsimp only at h
    split at h
    · cases hy : digitsN 4 (r6.dropWhile isWs) with
      | some yr =>
        obtain ⟨y, rest⟩ := yr
        rw [hy] at h
        dsimp only at h
        cases h
        exact ⟨c' :: r6.takeWhile isWs, y, rfl⟩
      | none => rw [hy] at h; cases h
    · cases h

theorem monthScanName_shape {name cs sub : Str}
    (h : monthScanName name cs = some sub) :
    ∃ w1 day comma w2 y, sub = name ++ w1 ++ day ++ comma ++ w2 ++ y := by
  unfold monthScanName at h
  cases h1 : dropLitCI name cs with
  | none => rw [h1] at h; dsimp only at h; cases h
  | some r1 =>
    rw [h1] at h
    dsimp only at h
    cases r1 with
    | nil => cases h
    | cons c r2 =>
      dsimp only at h
      split at h
      · obtain ⟨day, r4, _, _, _, hk⟩ := digits12_spec h
        try dsimp only at hk
        split at hk
        · next r5 =>
          unfold orO at hk
          cases hA : monthTailMk (name ++ (c :: r2.takeWhile isWs) ++ day)
              [','] r5 with
          | some w =>
            rw [hA] at hk
            dsimp only at hk
            cases hk
            obtain ⟨w2, yy, hshape⟩ := monthTailMk_shape hA
            exact ⟨c :: r2.takeWhile isWs, day, [','], w2, yy, hshape⟩
          | none =>
            rw [hA] at hk
            dsimp only at hk
            obtain ⟨w2, yy, hshape⟩ := monthTailMk_shape hk
            exact ⟨c :: r2.takeWhile isWs, day, [], w2, yy, hshape⟩
        · obtain ⟨w2, yy, hshape⟩ := monthTailMk_shape hk
          exact ⟨c :: r2.takeWhile isWs, day, [], w2, yy, hshape⟩
      · cases h

theorem monthScan_shape {t sub : Str} (h : monthScan t = some sub) :
    ∃ name w1 day comma w2 y, name ∈ monthNames ∧
      sub = name ++ w1 ++ day ++ comma ++ w2 ++ y := by
  obtain ⟨s', hm⟩ := findFirst_ex h
  unfold monthScanAt at hm
  obtain ⟨name, hmem, hname⟩ := foldr_orO_ex hm
  obtain ⟨w1, day, comma, w2, y, hshape⟩ := monthScanName_shape hname
  exact ⟨name, w1, day, comma, w2, y, hmem, hshape⟩

/-! ## Claim theorems -/

/-- C1: `parseShowFromEmail` returns null exactly when the date chain or the
show-name chain yields nothing; a non-null result is a complete record (all
four fields nonempty, city and venue defaulting to "Unknown"); and the
newsletter example parses to null. -/
theorem C1_null_iff :
    (∀ (cy : Int) (s b : Str), parseShowFromEmail cy s b = none ↔
      (dateChain cy s b = none ∨ showChainOf cy s b = [])) ∧
    (∀ (cy : Int) (s b : Str) (r : ParsedShow),
      parseShowFromEmail cy s b = some r →
      r.showName ≠ [] ∧ r.date ≠ [] ∧ r.city ≠ [] ∧ r.venue ≠ []) ∧
    parseShowFromEmail 2026 "Weekly Newsletter".data
      "Check out our top picks!".data = none := by
  refine ⟨?_, ?_, by decide⟩
  · intro cy s b
    rw [parseShowFromEmail]
    try dsimp only
    match hd : dateChain cy s b with
    | none => simp
    | some d =>
      have hdn : d ≠ [] := dateChain_ne_nil hd
      try dsimp only
      constructor
      · intro h
        split at h
        · next hc =>
          simp only [Bool.or_eq_true, decide_eq_true_eq] at hc
          rcases hc with hc | hc
          · exact Or.inr hc
          · exact absurd hc hdn
        · cases h
      · intro h
        rcases h with h | h
        · cases h
        · rw [if_pos]
          simp [h]
  · intro cy s b r h
    obtain ⟨d, hd, hs, hdn, hr⟩ := parse_some_spec h
    subst hr
    refine ⟨?_, hdn, cityFinal_ne_nil cy s b, venueInfo_ne_nil s b⟩
    exact goodCand_trim_ne_nil (showChain_good cy s b) hs

/-- C1 witness: the universal part applied at a concrete successful parse. -/
theorem C1_null_iff_witness :
    (parseShowFromEmail 2026 "ZZZ".data
      "Venue: Somewhere Hall, 10115 Berlin\nArtist, Hamburg, 01.01.2026".data =
      some ⟨"Artist".data, "2026-01-01".data, "Hamburg".data,
            "Somewhere Hall".data⟩) ∧
    ("Artist".data ≠ ([] : Str) ∧ "2026-01-01".data ≠ ([] : Str) ∧
     "Hamburg".data ≠ ([] : Str) ∧ "Somewhere Hall".data ≠ ([] : Str)) := by
  refine ⟨by decide, ?_⟩
  exact C1_null_iff.2.1 2026 "ZZZ".data
    "Venue: Somewhere Hall, 10115 Berlin\nArtist, Hamburg, 01.01.2026".data
    ⟨"Artist".data, "2026-01-01".data, "Hamburg".data, "Somewhere Hall".data⟩
    (by decide)

/-- C2 counterexample: in the dot grammar the claimed `>12 ⇒ day`
disambiguation does not happen — `"03.14.2025"` converts with 14 as the
month, `"2025-14-03"`, where the claim requires `"2025-03-14"`. -/
theorem C2_counterexample :
    parseDate "03.14.2025".data = some "2025-14-03".data ∧
    "2025-14-03".data ≠ "2025-03-14".data := by
  constructor
  · decide
  · decide

/-- C2 amended: for every dot-separated date (arbitrary 1–2 digit day and
month captures, 4-digit year) the conversion is day.month.year with no
disambiguation; for every slash-separated date, a first component exceeding
12 is taken as the day, and otherwise — including when only the second
component exceeds 12 (then that component is the day) and the tie case — the
first component is the month and the second the day; illustrated on the
claim's own examples. -/
theorem C2_date_order :
    (∀ d m y : Str,
      1 ≤ d.length → d.length ≤ 2 → d.all isDigitChar = true →
      1 ≤ m.length → m.length ≤ 2 → m.all isDigitChar = true →
      y.length = 4 → y.all isDigitChar = true →
      parseDate (d ++ '.' :: m ++ '.' :: y) =
        some (y ++ '-' :: pad2 m ++ '-' :: pad2 d)) ∧
    (∀ a b y : Str,
      1 ≤ a.length → a.length ≤ 2 → a.all isDigitChar = true →
      1 ≤ b.length → b.length ≤ 2 → b.all isDigitChar = true →
      y.length = 4 → y.all isDigitChar = true →
      parseDate (a ++ '/' :: b ++ '/' :: y) =
        if 12 < digitsToNat a then some (y ++ '-' :: pad2 b ++ '-' :: pad2 a)
        else some (y ++ '-' :: pad2 a ++ '-' :: pad2 b)) ∧
    parseDate "14.03.2025".data = some "2025-03-14".data ∧
    parseDate "03.14.2025".data = some "2025-14-03".data ∧
    parseDate "14/03/2025".data = some "2025-03-14".data ∧
    parseDate "03/14/2025".data = some "2025-03-14".data ∧
    parseDate "05/03/2025".data = some "2025-05-03".data := by
  refine ⟨?_, ?_, by decide, by decide, by decide, by decide, by decide⟩
  · intro d m y hd1 hd2 hd3 hm1 hm2 hm3 hy1 hy2
    exact parseDate_dot_exact hd1 hd2 hd3 hm1 hm2 hm3 hy1 hy2
  · intro a b y ha1 ha2 ha3 hb1 hb2 hb3 hy1 hy2
    exact parseDate_slash_exact ha1 ha2 ha3 hb1 hb2 hb3 hy1 hy2

/-- C2 witness: the universal conversions at concrete digit captures. -/
theorem C2_date_order_witness :
    parseDate ("03".data ++ '.' :: "14".data ++ '.' :: "2025".data) =
      some ("2025".data ++ '-' :: pad2 "14".data ++ '-' :: pad2 "03".data) ∧
    parseDate ("14".data ++ '/' :: "03".data ++ '/' :: "2025".data) =
      (if 12 < digitsToNat "14".data then
        some ("2025".data ++ '-' :: pad2 "03".data ++ '-' :: pad2 "14".data)
      else
        some ("2025".data ++ '-' :: pad2 "14".data ++ '-' :: pad2 "03".data)) :=
  ⟨C2_date_order.1 "03".data "14".data "2025".data (by decide) (by decide)
      (by decide) (by decide) (by decide) (by decide) (by decide) (by decide),
   C2_date_order.2.1 "14".data "03".data "2025".data (by decide) (by decide)
      (by decide) (by decide) (by decide) (by decide) (by decide) (by decide)⟩

/-- C3: every date in a non-null parse result has its year inside
`[currentYear − 1, currentYear + 2]`, and a body whose only date is
`01.01.1999` parses to null (at current year 2026). -/
theorem C3_year_window :
    (∀ (cy : Int) (s b : Str) (r : ParsedShow),
      parseShowFromEmail cy s b = some r →
      cy - 1 ≤ (yearNatOf r.date : Int) ∧ (yearNatOf r.date : Int) ≤ cy + 2) ∧
    parseShowFromEmail 2026 "X".data "Ref: 12345, 01.01.1999".data = none := by
  refine ⟨?_, by decide⟩
  intro cy s b r h
  obtain ⟨d, hd, _, _, hr⟩ := parse_some_spec h
  subst hr
  exact isReasonable_bounds (dateChain_prop hd).1

/-- C3 witness: the window bounds at a concrete successful parse. -/
theorem C3_year_window_witness :
    (2026 : Int) - 1 ≤ (yearNatOf "2026-06-05".data : Int) ∧
    (yearNatOf "2026-06-05".data : Int) ≤ 2026 + 2 :=
  C3_year_window.1 2026 "X".data "05.06.2026".data
    ⟨"X".data, "2026-06-05".data, "Unknown".data, "Unknown".data⟩ (by decide)

/-- C10: only the textually first match of each standalone grammar is
converted: a text whose first dot-date has an implausible year parses to null
even though a plausible dot-date occurs later in the same text (and that
later date alone parses fine). -/
theorem C10_first_match_only :
    extractDate 2026 "Ref 01.01.1999 Foo 05.06.2026".data = none ∧
    parseDate "05.06.2026".data = some "2026-06-05".data ∧
    isReasonableEventYear 2026 "2026-06-05".data = true ∧
    parseShowFromEmail 2026 "Radiohead live".data
      "Ref 01.01.1999 Foo 05.06.2026".data = none ∧
    parseShowFromEmail 2026 "Radiohead live".data "05.06.2026".data =
      some ⟨"Radiohead live".data, "2026-06-05".data, "Unknown".data,
            "Unknown".data⟩ := by
  refine ⟨by decide, by decide, by decide, by decide, by decide⟩

theorem jsOrO_some_ne {x : Str} {y : Option Str} (hx : x ≠ []) :
    jsOrO (some x) y = some x := by
  unfold jsOrO
  simp [hx]

theorem jsOrS_some_ne {x b : Str} (hx : x ≠ []) : jsOrS (some x) b = x := by
  unfold jsOrS
  simp [hx]

/-- C4 counterexample: the vendor body line can match with a blank city
capture (`"a,  , 01.01.2026"`, whose second segment is whitespace); its date
is plausible and is returned, but the returned city is the `"Unknown"`
default, not the (empty) city captured from the line. -/
theorem C4_counterexample :
    extractEventimArtistCityDate 2026 (theText "a,  , 01.01.2026".data) =
      some ⟨"a".data, [], "2026-01-01".data⟩ ∧
    parseShowFromEmail 2026 "ZZZ".data "a,  , 01.01.2026".data =
      some ⟨"a".data, "2026-01-01".data, "Unknown".data, "Unknown".data⟩ ∧
    "Unknown".data ≠ ([] : Str) := by
  refine ⟨by decide, by decide, by decide⟩

/-- C4 amended: whenever the vendor body line matches with a plausible date,
any non-null result takes its date from that line, and — provided the line's
captured city is nonempty after trimming — its city as well, overriding every
other extraction path. -/
theorem C4_vendor_precedence :
    ∀ (cy : Int) (s b : Str) (e : EventimACD) (r : ParsedShow),
      extractEventimArtistCityDate cy (theText b) = some e →
      parseShowFromEmail cy s b = some r →
      r.date = e.date ∧ (e.city ≠ [] → r.city = e.city) := by
  intro cy s b e r he h
  obtain ⟨d, hd, _, _, hr⟩ := parse_some_spec h
  subst hr
  have hdn : e.date ≠ [] := dateShape_ne_nil (eventim_spec he).2.1
  constructor
  · unfold dateChain at hd
    rw [he] at hd
    simp only [Option.map] at hd
    rw [jsOrO_some_ne hdn] at hd
    exact (Option.some.injEq .. ▸ hd).symm
  · intro hc
    show cityFinalOf cy s b = e.city
    unfold cityFinalOf
    rw [he]
    simp only [Option.map]
    exact jsOrS_some_ne hc

/-- C4 witness: the amended precedence at the spec's own example (venue label
city "Berlin" loses to the vendor line's "Hamburg"). -/
theorem C4_vendor_precedence_witness :
    (ParsedShow.date ⟨"Artist".data, "2026-01-01".data, "Hamburg".data,
        "Somewhere Hall".data⟩ =
      EventimACD.date ⟨"Artist".data, "Hamburg".data, "2026-01-01".data⟩) ∧
    (EventimACD.city ⟨"Artist".data, "Hamburg".data, "2026-01-01".data⟩ ≠ [] →
      ParsedShow.city ⟨"Artist".data, "2026-01-01".data, "Hamburg".data,
        "Somewhere Hall".data⟩ =
      EventimACD.city ⟨"Artist".data, "Hamburg".data, "2026-01-01".data⟩) :=
  C4_vendor_precedence 2026 "ZZZ".data
    "Venue: Somewhere Hall, 10115 Berlin\nArtist, Hamburg, 01.01.2026".data
    ⟨"Artist".data, "Hamburg".data, "2026-01-01".data⟩
    ⟨"Artist".data, "2026-01-01".data, "Hamburg".data, "Somewhere Hall".data⟩
    (by decide) (by decide)

/-- C5 counterexample: the date of a non-null result need not be a valid
calendar date — `"Date: 14.35.2026"` is accepted and returns month 35. -/
theorem C5_counterexample :
    parseShowFromEmail 2026 "X".data "Date: 14.35.2026".data =
      some ⟨"X".data, "2026-35-14".data, "Unknown".data, "Unknown".data⟩ ∧
    validCalendarDate "2026-35-14".data = false := by
  refine ⟨by decide, by decide⟩

/-- C5 amended: every non-null result has a nonempty show of at most 200
characters, a date of shape `YYYY-MM-DD` (digits in the right places, though
the month and day fields need not be calendar-valid), and nonempty city and
venue strings. -/
theorem C5_invariant :
    ∀ (cy : Int) (s b : Str) (r : ParsedShow),
      parseShowFromEmail cy s b = some r →
      r.showName ≠ [] ∧ r.showName.length ≤ 200 ∧ dateShape r.date = true ∧
      r.city ≠ [] ∧ r.venue ≠ [] := by
  intro cy s b r h
  obtain ⟨d, hd, hs, hdn, hr⟩ := parse_some_spec h
  subst hr
  have hg := showChain_good cy s b
  refine ⟨goodCand_trim_ne_nil hg hs, ?_, (dateChain_prop hd).2,
    cityFinal_ne_nil cy s b, venueInfo_ne_nil s b⟩
  exact le_trans (trim_length_le _) hg.1

/-- C5 witness: the invariant at a concrete successful parse. -/
theorem C5_invariant_witness :
    "Radiohead live".data ≠ ([] : Str) ∧
    ("Radiohead live".data : Str).length ≤ 200 ∧
    dateShape "2026-06-05".data = true ∧
    "Unknown".data ≠ ([] : Str) ∧ "Unknown".data ≠ ([] : Str) :=
  C5_invariant 2026 "Radiohead live".data "05.06.2026".data
    ⟨"Radiohead live".data, "2026-06-05".data, "Unknown".data, "Unknown".data⟩
    (by decide)

/-- C6 counterexample: the standalone scan does not recognize the
"Day Month Year" order — `extractDate` finds nothing in `"14 March 2026"`
although `parseDate` itself converts that very string. -/
theorem C6_counterexample :
    extractDate 2026 "14 March 2026".data = none ∧
    parseDate "14 March 2026".data = some "2026-03-14".data := by
  refine ⟨by decide, by decide⟩

/-- C6 amended: for every text in which no date label matches, the standalone
scan tries the grammars in priority order — dot-separated, then ISO, then
slash-separated, then month-name dates: (1) a dot match that converts to a
plausible date supplies the result; (2)-(4) when each earlier stage yields
nothing, the next grammar's plausible match supplies the result; (5) when all
four stages yield nothing the result is none; and (6) every match of the
month-name scan has the "Month Day, Year" shape — month name first, then the
day digits, an optional comma, and the year — so the "Day Month Year" order is
never found by the standalone scan. -/
theorem C6_scan_priority :
    (∀ (cy : Int) (t sub p : Str),
      findAtLineStarts dateLabelAt true t = none →
      findFirst otherDateLabelAt t = none →
      sepDateScan '.' t = some sub →
      parseDate sub = some p →
      isReasonableEventYear cy p = true →
      extractDate cy t = some p) ∧
    (∀ (cy : Int) (t sub p : Str),
      findAtLineStarts dateLabelAt true t = none →
      findFirst otherDateLabelAt t = none →
      stageDate cy (sepDateScan '.' t) none = none →
      isoDateScan t = some sub →
      parseDate sub = some p →
      isReasonableEventYear cy p = true →
      extractDate cy t = some p) ∧
    (∀ (cy : Int) (t sub p : Str),
      findAtLineStarts dateLabelAt true t = none →
      findFirst otherDateLabelAt t = none →
      stageDate cy (sepDateScan '.' t) none = none →
      stageDate cy (isoDateScan t) none = none →
      sepDateScan '/' t = some sub →
      parseDate sub = some p →
      isReasonableEventYear cy p = true →
      extractDate cy t = some p) ∧
    (∀ (cy : Int) (t sub p : Str),
      findAtLineStarts dateLabelAt true t = none →
      findFirst otherDateLabelAt t = none →
      stageDate cy (sepDateScan '.' t) none = none →
      stageDate cy (isoDateScan t) none = none →
      stageDate cy (sepDateScan '/' t) none = none →
      monthScan t = some sub →
      parseDate sub = some p →
      isReasonableEventYear cy p = true →
      extractDate cy t = some p) ∧
    (∀ (cy : Int) (t : Str),
      findAtLineStarts dateLabelAt true t = none →
      findFirst otherDateLabelAt t = none →
      stageDate cy (sepDateScan '.' t) none = none →
      stageDate cy (isoDateScan t) none = none →
      stageDate cy (sepDateScan '/' t) none = none →
      stageDate cy (monthScan t) none = none →
      extractDate cy t = none) ∧
    (∀ (t sub : Str), monthScan t = some sub →
      ∃ name w1 day comma w2 y, name ∈ monthNames ∧
        sub = name ++ w1 ++ day ++ comma ++ w2 ++ y) := by
  refine ⟨?_, ?_, ?_, ?_, ?_, ?_⟩
  · intro cy t sub p h1 h2 h3 h4 h5
    unfold extractDate
    rw [h1, h2, stageDate_none_cand, stageDate_none_cand, h3]
    exact stageDate_some h4 h5
  · intro cy t sub p h1 h2 h3 h4 h5 h6
    unfold extractDate
    rw [h1, h2, stageDate_none_cand, stageDate_none_cand,
      stageDate_none_fb h3, h4]
    exact stageDate_some h5 h6
  · intro cy t sub p h1 h2 h3 h4 h5 h6 h7
    unfold extractDate
    rw [h1, h2, stageDate_none_cand, stageDate_none_cand,
      stageDate_none_fb h3, stageDate_none_fb h4, h5]
    exact stageDate_some h6 h7
  · intro cy t sub p h1 h2 h3 h4 h5 h6 h7 h8
    unfold extractDate
    rw [h1, h2, stageDate_none_cand, stageDate_none_cand,
      stageDate_none_fb h3, stageDate_none_fb h4, stageDate_none_fb h5, h6]
    exact stageDate_some h7 h8
  · intro cy t h1 h2 h3 h4 h5 h6
    unfold extractDate
    rw [h1, h2, stageDate_none_cand, stageDate_none_cand,
      stageDate_none_fb h3, stageDate_none_fb h4, stageDate_none_fb h5]
    exact h6
  · intro t sub h
    exact monthScan_shape h

theorem C6_scan_priority_witness :
    extractDate 2026 "01.01.1999 2026-05-06".data = some "2026-05-06".data :=
  C6_scan_priority.2.1 2026 "01.01.1999 2026-05-06".data "2026-05-06".data
    "2026-05-06".data (by decide) (by decide) (by decide) (by decide)
    (by decide) (by decide)

/-- C7 counterexample: a label value consisting of a single instructive
keyword is sentence-like and yet returned verbatim (the salvaged last token
is the whole value). -/
theorem C7_counterexample :
    looksLikeSentence "please".data = true ∧
    sanitizeCityFromLabel "please".data = some "please".data := by
  refine ⟨by decide, by decide⟩

/-- C7 amended: a sentence-like label value is never accepted through the
as-is branch — the sanitizer returns the last city-like token of the value
(which can coincide with the value itself when the value is a single such
token), or nothing; the spec's boilerplate example salvages "in", and a value
with no city-like token yields nothing. -/
theorem C7_sanitizer :
    (∀ v : Str, looksLikeSentence (trimStr v) = true → trimStr v ≠ [] →
      (trimStr v).length ≤ 200 →
      sanitizeCityFromLabel v =
        ((splitWs (trimStr v)).filter wordCityOk).getLast?) ∧
    sanitizeCityFromLabel
      "You can check your tickets at any time by logging in".data =
      some "in".data ∧
    sanitizeCityFromLabel "? * ?".data = none := by
  refine ⟨?_, by decide, by decide⟩
  intro v hsent hne hlen
  unfold sanitizeCityFromLabel
  rw [if_neg ?_]
  · rw [if_neg ?_]
    intro hcond
    simp only [Bool.and_eq_true, Bool.not_eq_true'] at hcond
    rw [hcond.1.1.1] at hsent
    cases hsent
  · intro hcond
    simp only [Bool.or_eq_true, decide_eq_true_eq] at hcond
    rcases hcond with hcond | hcond
    · exact hne hcond
    · omega

/-- C7 witness: the amended equation at the single-keyword value. -/
theorem C7_sanitizer_witness :
    sanitizeCityFromLabel "please".data =
      ((splitWs (trimStr "please".data)).filter wordCityOk).getLast? :=
  C7_sanitizer.1 "please".data (by decide) (by decide) (by decide)

/-- C8 counterexample: `parseShowFromEmail` of `src/lib/parse-show-from-email.ts`
(the version the inbound webhook imports) returns the determined city verbatim
— `"HAMBURG"` stays `"HAMBURG"`, which is not title-cased. -/
theorem C8_counterexample :
    parseShowFromEmail 2026 "ZZZ".data "Artist, HAMBURG, 01.01.2026".data =
      some ⟨"Artist".data, "2026-01-01".data, "HAMBURG".data,
            "Unknown".data⟩ ∧
    isTitleCased "HAMBURG".data = false := by
  refine ⟨by decide, by decide⟩

/-- C8 amended: only the `part_004` variant of the parser title-cases the
final city (its every non-null result's city is an output of
`capitalizeCity`, which uppercases each word's first character and lowercases
the rest); the `src/lib` version returns the city as determined. -/
theorem C8_title_case :
    (∀ (cy : Int) (s b : Str) (r : ParsedShow),
      parseShowFromEmailV2 cy s b = some r →
      ∃ c, r.city = capitalizeCity c) ∧
    capitalizeCity "HAMBURG".data = "Hamburg".data ∧
    capitalizeCity "new  york".data = "New York".data ∧
    parseShowFromEmailV2 2026 "ZZZ".data "Artist, HAMBURG, 01.01.2026".data =
      some ⟨"Artist".data, "2026-01-01".data, "Hamburg".data,
            "Unknown".data⟩ ∧
    parseShowFromEmail 2026 "ZZZ".data "Artist, HAMBURG, 01.01.2026".data =
      some ⟨"Artist".data, "2026-01-01".data, "HAMBURG".data,
            "Unknown".data⟩ := by
  refine ⟨?_, by decide, by decide, by decide, by decide⟩
  intro cy s b r h
  obtain ⟨d, hd, hs, hdn, hr⟩ := parseV2_some_spec h
  subst hr
  exact ⟨cityFinalV2Of cy s b, rfl⟩

/-- C8 witness: the variant's title-casing at a concrete parse. -/
theorem C8_title_case_witness :
    ∃ c, ParsedShow.city ⟨"Artist".data, "2026-01-01".data, "Hamburg".data,
      "Unknown".data⟩ = capitalizeCity c :=
  C8_title_case.1 2026 "ZZZ".data "Artist, HAMBURG, 01.01.2026".data
    ⟨"Artist".data, "2026-01-01".data, "Hamburg".data, "Unknown".data⟩
    (by decide)

/-- C9 counterexample: with no vendor pattern and no label matching, the
returned show is the trimmed subject truncated to 200 characters *and then
trimmed again*: a 201-character trimmed subject whose 200th character is a
space loses that space, so the result differs from the plain
truncate-after-trim the claim states. -/
theorem C9_counterexample :
    extractEventimShowFromSubject (List.replicate 199 'a' ++ " b".data) =
      none ∧
    extractEventimArtistCityDate 2026 (theText "05.06.2026".data) = none ∧
    extractLabel
      (combinedOf (List.replicate 199 'a' ++ " b".data) "05.06.2026".data)
      showLabels = none ∧
    parseShowFromEmail 2026 (List.replicate 199 'a' ++ " b".data)
      "05.06.2026".data =
      some ⟨List.replicate 199 'a', "2026-06-05".data, "Unknown".data,
            "Unknown".data⟩ ∧
    List.replicate 199 'a' ≠
      (trimStr (List.replicate 199 'a' ++ " b".data)).take 200 := by
  refine ⟨by decide, by decide, by decide, by decide, by decide⟩

/-- C9 amended: when neither vendor pattern nor any show/event label matches,
the returned show equals the trimmed subject truncated to 200 characters and
re-trimmed (for subjects of at most 200 characters after trimming this is
exactly the trimmed subject). -/
theorem C9_subject_fallback :
    ∀ (cy : Int) (s b : Str) (r : ParsedShow),
      extractEventimShowFromSubject s = none →
      extractEventimArtistCityDate cy (theText b) = none →
      extractLabel (combinedOf s b) showLabels = none →
      parseShowFromEmail cy s b = some r →
      r.showName = trimStr ((trimStr s).take 200) := by
  intro cy s b r h1 h2 h3 h
  obtain ⟨d, hd, hs, hdn, hr⟩ := parse_some_spec h
  subst hr
  show trimStr (showChainOf cy s b) = _
  unfold showChainOf
  rw [h1, h2, h3]
  rfl

/-- C9 witness: the subject fallback at a concrete parse. -/
theorem C9_subject_fallback_witness :
    ParsedShow.showName ⟨"Radiohead".data, "2026-06-05".data, "Unknown".data,
      "Unknown".data⟩ = trimStr ((trimStr "Radiohead".data).take 200) :=
  C9_subject_fallback 2026 "Radiohead".data "05.06.2026".data
    ⟨"Radiohead".data, "2026-06-05".data, "Unknown".data, "Unknown".data⟩
    (by decide) (by decide) (by decide) (by decide)

end SCT
